import Mathlib

/-!
Verification of the urban-expansion spatial pipeline
(simbyp_area_construida).

Planar geometry is embedded as finite sets of unit grid cells
(a pixelated planar region, matching the raster-derived polygons the
pipeline manipulates): geometric intersection, union and difference are
the corresponding finite-set operations, and area is the number of cells
(one cell = one square metre of the working planar CRS, EPSG:9377 in the
source; the caller-side reprojection `to_crs` is modelled as the identity
on this shared grid, as the spec makes CRS alignment the caller's duty).
The shapely `buffer` primitive is modelled as dilation of the cell set by
a Chebyshev ball, which preserves exactly what the algorithms use:
buffering is monotone, enlarging, and maps nonempty regions to nonempty
regions.

Embedded source functions (names kept from the repository):
* `create_growth_clusters`  — src/utils.py, the buffer-based flood fill;
* `create_intersections`    — src/stats_utils.py, vectorize + overlays;
* `calculate_expansion_areas` — src/stats_utils.py, zonal aggregation;
* `top_clusters`            — src/maps.py, per-cluster dissolved areas;
* `set_dates`               — src/aux_utils.py, month-end date pairs.
-/

/-! ## Geometry: cell-set model -/

abbrev Cell := ℤ × ℤ

abbrev Geom := Finset Cell

/-- Shapely `a.intersects(b)`: the two regions share at least one cell. -/
def intersects (a b : Geom) : Bool := decide (a ∩ b).Nonempty

/-- Shapely `unary_union` of a list of geometries. -/
def unaryUnion (l : List Geom) : Geom := l.foldr (· ∪ ·) ∅

/-- Shapely `geometry.buffer(r)`: dilation of the region by the
(Chebyshev) ball of radius r. -/
def buffer (r : ℕ) (g : Geom) : Geom :=
  g.biUnion (fun c =>
    ((Finset.Icc (-(r : ℤ)) r) ×ˢ (Finset.Icc (-(r : ℤ)) r)).image
      (fun d => (c.1 + d.1, c.2 + d.2)))

theorem intersects_symm (a b : Geom) : intersects a b = intersects b a := by
  simp [intersects, Finset.inter_comm]

theorem intersects_iff {a b : Geom} : intersects a b = true ↔ (a ∩ b).Nonempty := by
  simp [intersects]

theorem intersects_mono {a c c' : Geom} (h : intersects a c = true) (hsub : c ⊆ c') :
    intersects a c' = true := by
  rw [intersects_iff] at h ⊢
  obtain ⟨x, hx⟩ := h
  exact ⟨x, Finset.mem_inter.2 ⟨(Finset.mem_inter.1 hx).1, hsub (Finset.mem_inter.1 hx).2⟩⟩

theorem intersects_self {a : Geom} (h : a.Nonempty) : intersects a a = true := by
  rw [intersects_iff]
  simpa using h

theorem mem_unaryUnion {x : Cell} {l : List Geom} :
    x ∈ unaryUnion l ↔ ∃ g ∈ l, x ∈ g := by
  induction l with
  | nil => simp [unaryUnion]
  | cons g t ih =>
      simp only [unaryUnion, List.foldr_cons, Finset.mem_union, List.mem_cons]
      constructor
      · rintro (hx | hx)
        · exact ⟨g, Or.inl rfl, hx⟩
        · obtain ⟨g', hg', hx'⟩ := ih.1 hx
          exact ⟨g', Or.inr hg', hx'⟩
      · rintro ⟨g', hg' | hg', hx'⟩
        · subst hg'; exact Or.inl hx'
        · exact Or.inr (ih.2 ⟨g', hg', hx'⟩)

theorem subset_unaryUnion {g : Geom} {l : List Geom} (h : g ∈ l) :
    g ⊆ unaryUnion l := fun _ hx => mem_unaryUnion.2 ⟨g, h, hx⟩

theorem subset_buffer (r : ℕ) (g : Geom) : g ⊆ buffer r g := by
  intro c hc
  refine Finset.mem_biUnion.2 ⟨c, hc, Finset.mem_image.2 ⟨(0, 0), ?_, ?_⟩⟩
  · simp [Finset.mem_product]
  · simp

theorem buffer_nonempty {r : ℕ} {g : Geom} (h : g.Nonempty) : (buffer r g).Nonempty := by
  obtain ⟨c, hc⟩ := h
  exact ⟨c, subset_buffer r g hc⟩

/-! ## Growth Cluster Builder (src/utils.py, create_growth_clusters)

The iterative flood fill: each feature starts unassigned (cluster id -1);
processing features in input order, an unassigned feature opens a new
cluster and repeatedly absorbs every still-unassigned feature whose
buffered geometry intersects the union of the buffers absorbed so far,
until a fixed point.  The Python while-loop is embedded with explicit
fuel; one more round than the number of unassigned features always
reaches the fixed point (each productive round assigns at least one). -/

/-- Indices of the still-unassigned features whose buffer intersects the
running cluster geometry (the overlaps selection inside the while loop). -/
def overlapIdxs (bufs : List Geom) (assign : List ℤ) (current : Geom) : List ℕ :=
  (List.range bufs.length).filter
    (fun j => (assign.getD j 0 == -1) && intersects (bufs.getD j ∅) current)

/-- The running cluster geometry: unary_union of the buffers of the
member indices collected so far. -/
def unionOver (bufs : List Geom) (members : List ℕ) : Geom :=
  unaryUnion (members.map (fun j => bufs.getD j ∅))

/-- gdf.loc[idxs, "cluster_id"] = cluster_id. -/
def assignIds (assign : List ℤ) (idxs : List ℕ) (cid : ℤ) : List ℤ :=
  idxs.foldl (fun a j => a.set j cid) assign

/-- The inner while loop of create_growth_clusters, with fuel. -/
def growCluster (bufs : List Geom) (cid : ℤ) :
    ℕ → List ℤ → List ℕ → List ℤ × List ℕ
  | 0, assign, members => (assign, members)
  | fuel + 1, assign, members =>
      let ov := overlapIdxs bufs assign (unionOver bufs members)
      if ov.isEmpty then (assign, members)
      else growCluster bufs cid fuel (assignIds assign ov cid) (members ++ ov)

/-- Number of features still carrying the sentinel id -1. -/
def countNeg (assign : List ℤ) : ℕ := assign.countP (fun x => x == -1)

/-- One iteration of the outer for loop: skip an already-assigned
feature, otherwise open cluster cid+1 and run the flood fill seeded
at this feature. -/
def clusterStep (bufs : List Geom) (st : List ℤ × ℤ) (i : ℕ) : List ℤ × ℤ :=
  if st.1.getD i 0 ≠ -1 then st
  else
    let cid := st.2 + 1
    ((growCluster bufs cid (countNeg st.1 + 1) st.1 [i]).1, cid)

/-- create_growth_clusters (src/utils.py): buffer every geometry, then
flood-fill cluster ids over the buffered-intersects relation; returns the
cluster_id column (input order). -/
def create_growth_clusters (geoms : List Geom) (r : ℕ) : List ℤ :=
  let bufs := geoms.map (buffer r)
  ((List.range geoms.length).foldl (clusterStep bufs)
      (List.replicate geoms.length (-1), 0)).1

/-- Two features are adjacent when both indices are in range and their
buffered geometries intersect. -/
def Adjacent (geoms : List Geom) (r : ℕ) (a b : ℕ) : Prop :=
  a < geoms.length ∧ b < geoms.length ∧
    intersects (buffer r (geoms.getD a ∅)) (buffer r (geoms.getD b ∅)) = true

/-- Connectivity: a chain of features with consecutive buffered
geometries intersecting. -/
def Connected (geoms : List Geom) (r : ℕ) : ℕ → ℕ → Prop :=
  Relation.ReflTransGen (Adjacent geoms r)

/-! ### Bookkeeping lemmas for the flood fill -/

/-- Adjacency stated directly on the list of buffered geometries. -/
def AdjB (bufs : List Geom) (a b : ℕ) : Prop :=
  a < bufs.length ∧ b < bufs.length ∧
    intersects (bufs.getD a ∅) (bufs.getD b ∅) = true

/-- Reachability over buffered adjacency. -/
def ReachB (bufs : List Geom) : ℕ → ℕ → Prop :=
  Relation.ReflTransGen (AdjB bufs)

theorem AdjB_symm {bufs : List Geom} : Symmetric (AdjB bufs) := by
  rintro a b ⟨ha, hb, hi⟩
  exact ⟨hb, ha, by rwa [intersects_symm]⟩

theorem ReachB_symm {bufs : List Geom} : Symmetric (ReachB bufs) :=
  Relation.ReflTransGen.symmetric AdjB_symm

theorem getD_map_buffer {geoms : List Geom} {r : ℕ} {j : ℕ} (hj : j < geoms.length) :
    (geoms.map (buffer r)).getD j ∅ = buffer r (geoms.getD j ∅) := by
  rw [List.getD_eq_getElem?_getD, List.getD_eq_getElem?_getD, List.getElem?_map,
    List.getElem?_eq_getElem hj]
  rfl

theorem Adjacent_eq_AdjB (geoms : List Geom) (r : ℕ) :
    Adjacent geoms r = AdjB (geoms.map (buffer r)) := by
  funext a b
  apply propext
  unfold Adjacent AdjB
  rw [List.length_map]
  constructor
  · rintro ⟨ha, hb, hi⟩
    exact ⟨ha, hb, by rwa [getD_map_buffer ha, getD_map_buffer hb]⟩
  · rintro ⟨ha, hb, hi⟩
    exact ⟨ha, hb, by rwa [getD_map_buffer ha, getD_map_buffer hb] at hi⟩

theorem Connected_eq_ReachB (geoms : List Geom) (r : ℕ) :
    Connected geoms r = ReachB (geoms.map (buffer r)) := by
  unfold Connected ReachB
  rw [Adjacent_eq_AdjB]

theorem mem_overlapIdxs {bufs : List Geom} {assign : List ℤ} {current : Geom} {j : ℕ} :
    j ∈ overlapIdxs bufs assign current ↔
      j < bufs.length ∧ assign.getD j 0 = -1 ∧
        intersects (bufs.getD j ∅) current = true := by
  simp only [overlapIdxs, List.mem_filter, List.mem_range, Bool.and_eq_true, beq_iff_eq]

theorem mem_unionOver {bufs : List Geom} {members : List ℕ} {x : Cell} :
    x ∈ unionOver bufs members ↔ ∃ j ∈ members, x ∈ bufs.getD j ∅ := by
  simp only [unionOver, mem_unaryUnion, List.mem_map]
  constructor
  · rintro ⟨g, ⟨j, hj, rfl⟩, hx⟩
    exact ⟨j, hj, hx⟩
  · rintro ⟨j, hj, hx⟩
    exact ⟨bufs.getD j ∅, ⟨j, hj, rfl⟩, hx⟩

theorem buf_subset_unionOver {bufs : List Geom} {members : List ℕ} {j : ℕ}
    (h : j ∈ members) : bufs.getD j ∅ ⊆ unionOver bufs members :=
  fun _ hx => mem_unionOver.2 ⟨j, h, hx⟩

theorem length_assignIds (assign : List ℤ) (idxs : List ℕ) (cid : ℤ) :
    (assignIds assign idxs cid).length = assign.length := by
  induction idxs generalizing assign with
  | nil => rfl
  | cons i t ih =>
      show (assignIds (assign.set i cid) t cid).length = assign.length
      rw [ih, List.length_set]

theorem getD_assignIds (assign : List ℤ) (idxs : List ℕ) (cid : ℤ)
    (hb : ∀ j ∈ idxs, j < assign.length) (j : ℕ) :
    (assignIds assign idxs cid).getD j 0 =
      if j ∈ idxs then cid else assign.getD j 0 := by
  induction idxs generalizing assign with
  | nil => simp [assignIds]
  | cons i t ih =>
      have hstep : assignIds assign (i :: t) cid = assignIds (assign.set i cid) t cid := rfl
      rw [hstep, ih (assign.set i cid)
        (fun k hk => by rw [List.length_set]; exact hb k (List.mem_cons_of_mem i hk))]
      by_cases hjt : j ∈ t
      · simp [hjt, List.mem_cons]
      · by_cases hji : j = i
        · subst hji
          have hj : j < assign.length := hb j (List.mem_cons_self j t)
          simp [hjt, List.mem_cons, List.getD_eq_getElem?_getD,
            List.getElem?_set_self hj]
        · have hset : (assign.set i cid)[j]? = assign[j]? :=
            List.getElem?_set_ne (fun h => hji h.symm)
          simp [hjt, hji, List.mem_cons, hset]

theorem getD_of_length_le {assign : List ℤ} {j : ℕ} (h : assign.length ≤ j) :
    assign.getD j 0 = 0 := by
  rw [List.getD_eq_getElem?_getD, List.getElem?_eq_none h]
  rfl

theorem countNeg_set_le (l : List ℤ) (j : ℕ) (cid : ℤ) (hcid : cid ≠ -1) :
    countNeg (l.set j cid) ≤ countNeg l := by
  by_cases hj : j < l.length
  · unfold countNeg
    rw [List.countP_set _ _ _ _ hj]
    by_cases hv : l[j] = -1
    · simp only [hv, beq_iff_eq, if_pos rfl, if_neg hcid]
      omega
    · simp only [beq_iff_eq, if_neg hv, if_neg hcid]
      omega
  · rw [List.set_eq_of_length_le (Nat.le_of_not_lt hj)]

theorem countNeg_set_lt (l : List ℤ) (j : ℕ) (cid : ℤ) (hj : j < l.length)
    (hneg : l.getD j 0 = -1) (hcid : cid ≠ -1) :
    countNeg (l.set j cid) < countNeg l := by
  have hjv : l[j] = -1 := by
    rw [List.getD_eq_getElem?_getD, List.getElem?_eq_getElem hj] at hneg
    simpa using hneg
  unfold countNeg
  rw [List.countP_set _ _ _ _ hj]
  have hpos : 0 < List.countP (fun x => x == -1) l := by
    rw [List.countP_pos_iff]
    exact ⟨l[j], List.getElem_mem hj, by simp [hjv]⟩
  simp only [hjv, beq_iff_eq, if_neg hcid]
  rw [if_pos trivial]
  omega

theorem countNeg_assignIds_le (assign : List ℤ) (idxs : List ℕ) (cid : ℤ)
    (hcid : cid ≠ -1) :
    countNeg (assignIds assign idxs cid) ≤ countNeg assign := by
  induction idxs generalizing assign with
  | nil => exact Nat.le_refl _
  | cons i t ih =>
      calc countNeg (assignIds (assign.set i cid) t cid)
          ≤ countNeg (assign.set i cid) := ih _
        _ ≤ countNeg assign := countNeg_set_le _ _ _ hcid

theorem countNeg_assignIds_lt (assign : List ℤ) (i : ℕ) (t : List ℕ) (cid : ℤ)
    (hi : i < assign.length) (hnegi : assign.getD i 0 = -1) (hcid : cid ≠ -1) :
    countNeg (assignIds assign (i :: t) cid) < countNeg assign :=
  calc countNeg (assignIds (assign.set i cid) t cid)
      ≤ countNeg (assign.set i cid) := countNeg_assignIds_le _ _ _ hcid
    _ < countNeg assign := countNeg_set_lt _ _ _ hi hnegi hcid

theorem growCluster_succ (bufs : List Geom) (cid : ℤ) (fuel : ℕ)
    (assign : List ℤ) (members : List ℕ) :
    growCluster bufs cid (fuel + 1) assign members =
      if (overlapIdxs bufs assign (unionOver bufs members)).isEmpty
      then (assign, members)
      else growCluster bufs cid fuel
        (assignIds assign (overlapIdxs bufs assign (unionOver bufs members)) cid)
        (members ++ overlapIdxs bufs assign (unionOver bufs members)) := rfl

theorem growCluster_fix (bufs : List Geom) (cid : ℤ) (hcid : cid ≠ -1) :
    ∀ (fuel : ℕ) (assign : List ℤ) (members : List ℕ),
      assign.length = bufs.length → countNeg assign < fuel →
      overlapIdxs bufs (growCluster bufs cid fuel assign members).1
        (unionOver bufs (growCluster bufs cid fuel assign members).2) = [] := by
  intro fuel
  induction fuel with
  | zero => intro assign members _ h; omega
  | succ fuel ih =>
      intro assign members hlen hfuel
      show overlapIdxs bufs
          (growCluster bufs cid (fuel + 1) assign members).1
          (unionOver bufs (growCluster bufs cid (fuel + 1) assign members).2) = []
      rw [growCluster_succ]
      by_cases hov : (overlapIdxs bufs assign (unionOver bufs members)).isEmpty
      · rw [if_pos hov]
        exact List.isEmpty_iff.1 hov
      · rw [if_neg hov]
        rcases hcase : overlapIdxs bufs assign (unionOver bufs members) with _ | ⟨i, t⟩
        · rw [hcase] at hov; simp at hov
        · have hmem : i ∈ overlapIdxs bufs assign (unionOver bufs members) := by
            rw [hcase]; exact List.mem_cons_self i t
          obtain ⟨hib, hineg, _⟩ := mem_overlapIdxs.1 hmem
          have hdec : countNeg (assignIds assign (i :: t) cid) < countNeg assign :=
            countNeg_assignIds_lt assign i t cid (hlen ▸ hib) hineg hcid
          exact ih _ _ (by rw [length_assignIds, hlen]) (by omega)

theorem growCluster_spec (bufs : List Geom) (cid : ℤ) (hcid : cid ≠ -1) :
    ∀ (fuel : ℕ) (assign : List ℤ) (members : List ℕ),
      assign.length = bufs.length →
      (growCluster bufs cid fuel assign members).1.length = assign.length ∧
      (∀ j, (growCluster bufs cid fuel assign members).1.getD j 0 ≠ assign.getD j 0 →
        (growCluster bufs cid fuel assign members).1.getD j 0 = cid ∧
        assign.getD j 0 = -1 ∧ j ∈ (growCluster bufs cid fuel assign members).2 ∧
        j < bufs.length) ∧
      (∀ j ∈ (growCluster bufs cid fuel assign members).2, j ∈ members ∨
        ((growCluster bufs cid fuel assign members).1.getD j 0 = cid ∧
         assign.getD j 0 = -1 ∧ j < bufs.length)) ∧
      (∀ j ∈ members, j ∈ (growCluster bufs cid fuel assign members).2) := by
  intro fuel
  induction fuel with
  | zero =>
      intro assign members _
      exact ⟨rfl, fun j hj => absurd rfl hj, fun j hj => Or.inl hj, fun j hj => hj⟩
  | succ fuel ih =>
      intro assign members hlen
      rw [growCluster_succ]
      by_cases hov : (overlapIdxs bufs assign (unionOver bufs members)).isEmpty
      · rw [if_pos hov]
        exact ⟨rfl, fun j hj => absurd rfl hj, fun j hj => Or.inl hj, fun j hj => hj⟩
      · rw [if_neg hov]
        have hlen' : (assignIds assign
            (overlapIdxs bufs assign (unionOver bufs members)) cid).length
              = bufs.length := by
          rw [length_assignIds, hlen]
        have hbnd : ∀ k ∈ overlapIdxs bufs assign (unionOver bufs members),
            k < assign.length :=
          fun k hk => hlen ▸ (mem_overlapIdxs.1 hk).1
        have hget : ∀ j,
            (assignIds assign (overlapIdxs bufs assign (unionOver bufs members))
              cid).getD j 0 =
            if j ∈ overlapIdxs bufs assign (unionOver bufs members) then cid
            else assign.getD j 0 :=
          getD_assignIds assign _ cid hbnd
        obtain ⟨ih1, ih2, ih3, ih4⟩ := ih
          (assignIds assign (overlapIdxs bufs assign (unionOver bufs members)) cid)
          (members ++ overlapIdxs bufs assign (unionOver bufs members)) hlen'
        refine ⟨?_, ?_, ?_, ?_⟩
        · rw [ih1, length_assignIds]
        · intro j hj
          by_cases hjov : j ∈ overlapIdxs bufs assign (unionOver bufs members)
          · obtain ⟨hjb, hjneg, _⟩ := mem_overlapIdxs.1 hjov
            have ha1 : (assignIds assign
                (overlapIdxs bufs assign (unionOver bufs members)) cid).getD j 0
                  = cid := by
              rw [hget j, if_pos hjov]
            have hres : (growCluster bufs cid fuel
                (assignIds assign (overlapIdxs bufs assign (unionOver bufs members)) cid)
                (members ++ overlapIdxs bufs assign (unionOver bufs members))).1.getD j 0
                  = cid := by
              by_cases hh : (growCluster bufs cid fuel
                  (assignIds assign (overlapIdxs bufs assign (unionOver bufs members)) cid)
                  (members ++ overlapIdxs bufs assign (unionOver bufs members))).1.getD j 0
                    = (assignIds assign
                        (overlapIdxs bufs assign (unionOver bufs members)) cid).getD j 0
              · rw [hh, ha1]
              · exact (ih2 j hh).1
            exact ⟨hres, hjneg, ih4 j (List.mem_append_right members hjov), hjb⟩
          · have ha1 : (assignIds assign
                (overlapIdxs bufs assign (unionOver bufs members)) cid).getD j 0
                  = assign.getD j 0 := by
              rw [hget j, if_neg hjov]
            have hh : (growCluster bufs cid fuel
                (assignIds assign (overlapIdxs bufs assign (unionOver bufs members)) cid)
                (members ++ overlapIdxs bufs assign (unionOver bufs members))).1.getD j 0
                  ≠ (assignIds assign
                      (overlapIdxs bufs assign (unionOver bufs members)) cid).getD j 0 := by
              rw [ha1]; exact hj
            obtain ⟨hc, hn, hm, hb⟩ := ih2 j hh
            exact ⟨hc, ha1 ▸ hn, hm, hb⟩
        · intro j hj
          rcases ih3 j hj with hmem | ⟨hc, hn, hb⟩
          · rcases List.mem_append.1 hmem with h | h
            · exact Or.inl h
            · obtain ⟨hjb, hjneg, _⟩ := mem_overlapIdxs.1 h
              have ha1 : (assignIds assign
                  (overlapIdxs bufs assign (unionOver bufs members)) cid).getD j 0
                    = cid := by
                rw [hget j, if_pos h]
              have hres : (growCluster bufs cid fuel
                  (assignIds assign (overlapIdxs bufs assign (unionOver bufs members)) cid)
                  (members ++ overlapIdxs bufs assign (unionOver bufs members))).1.getD j 0
                    = cid := by
                by_cases hh : (growCluster bufs cid fuel
                    (assignIds assign (overlapIdxs bufs assign (unionOver bufs members)) cid)
                    (members ++ overlapIdxs bufs assign (unionOver bufs members))).1.getD j 0
                      = (assignIds assign
                          (overlapIdxs bufs assign (unionOver bufs members)) cid).getD j 0
                · rw [hh, ha1]
                · exact (ih2 j hh).1
              exact Or.inr ⟨hres, hjneg, hjb⟩
          · have hjov : j ∉ overlapIdxs bufs assign (unionOver bufs members) := by
              intro hh
              rw [hget j, if_pos hh] at hn
              exact hcid hn
            rw [hget j, if_neg hjov] at hn
            exact Or.inr ⟨hc, hn, hb⟩
        · intro j hj
          exact ih4 j (List.mem_append_left _ hj)

theorem growCluster_reach (bufs : List Geom) (cid : ℤ) :
    ∀ (fuel : ℕ) (assign : List ℤ) (members : List ℕ),
      (∀ j ∈ members, j < bufs.length) →
      ∀ j ∈ (growCluster bufs cid fuel assign members).2,
        ∃ k ∈ members, ReachB bufs k j := by
  intro fuel
  induction fuel with
  | zero =>
      intro assign members _ j hj
      exact ⟨j, hj, Relation.ReflTransGen.refl⟩
  | succ fuel ih =>
      intro assign members hb
      rw [growCluster_succ]
      by_cases hov : (overlapIdxs bufs assign (unionOver bufs members)).isEmpty
      · rw [if_pos hov]
        intro j hj
        exact ⟨j, hj, Relation.ReflTransGen.refl⟩
      · rw [if_neg hov]
        intro j hj
        have hb' : ∀ k ∈ members ++ overlapIdxs bufs assign (unionOver bufs members),
            k < bufs.length := by
          intro k hk
          rcases List.mem_append.1 hk with h | h
          · exact hb k h
          · exact (mem_overlapIdxs.1 h).1
        obtain ⟨k, hk, hreach⟩ := ih _ _ hb' j hj
        rcases List.mem_append.1 hk with h | h
        · exact ⟨k, h, hreach⟩
        · obtain ⟨hkb, _, hint⟩ := mem_overlapIdxs.1 h
          obtain ⟨x, hx⟩ := intersects_iff.1 hint
          have hx1 := (Finset.mem_inter.1 hx).1
          have hx2 := (Finset.mem_inter.1 hx).2
          obtain ⟨t, ht, hxt⟩ := mem_unionOver.1 hx2
          have hadj : AdjB bufs t k :=
            ⟨hb t ht, hkb, intersects_iff.2 ⟨x, Finset.mem_inter.2 ⟨hxt, hx1⟩⟩⟩
          exact ⟨t, ht,
            Relation.ReflTransGen.trans (Relation.ReflTransGen.single hadj) hreach⟩

/-- Invariant of the outer for loop after processing the first k
features: ids are in range, processed features are assigned, assigned
classes are closed under adjacency, and equal ids imply connectivity. -/
structure OuterInv (bufs : List Geom) (k : ℕ) (st : List ℤ × ℤ) : Prop where
  len : st.1.length = bufs.length
  cidNonneg : 0 ≤ st.2
  valRange : ∀ j, j < bufs.length →
    st.1.getD j 0 = -1 ∨ (1 ≤ st.1.getD j 0 ∧ st.1.getD j 0 ≤ st.2)
  assigned : ∀ j, j < k → st.1.getD j 0 ≠ -1
  closure : ∀ a b, AdjB bufs a b → st.1.getD a 0 ≠ -1 →
    st.1.getD b 0 = st.1.getD a 0
  sameReach : ∀ a b, a < bufs.length → b < bufs.length →
    st.1.getD a 0 ≠ -1 → st.1.getD a 0 = st.1.getD b 0 → ReachB bufs a b

theorem clusterStep_inv (bufs : List Geom)
    (hne : ∀ j, j < bufs.length → (bufs.getD j ∅).Nonempty)
    (k : ℕ) (hk : k < bufs.length) (st : List ℤ × ℤ) (h : OuterInv bufs k st) :
    OuterInv bufs (k + 1) (clusterStep bufs st k) := by
  unfold clusterStep
  by_cases hka : st.1.getD k 0 ≠ -1
  · rw [if_pos hka]
    refine ⟨h.len, h.cidNonneg, h.valRange, ?_, h.closure, h.sameReach⟩
    intro j hj
    rcases Nat.lt_succ_iff_lt_or_eq.1 hj with hjk | rfl
    · exact h.assigned j hjk
    · exact hka
  · rw [if_neg hka]
    show OuterInv bufs (k + 1)
      ((growCluster bufs (st.2 + 1) (countNeg st.1 + 1) st.1 [k]).1, st.2 + 1)
    have hkneg : st.1.getD k 0 = -1 := not_not.1 hka
    have hc0 := h.cidNonneg
    have hcid : st.2 + 1 ≠ -1 := by omega
    obtain ⟨m1, m2, m3, m4⟩ :=
      growCluster_spec bufs (st.2 + 1) hcid (countNeg st.1 + 1) st.1 [k] h.len
    have hfix := growCluster_fix bufs (st.2 + 1) hcid (countNeg st.1 + 1) st.1 [k]
      h.len (Nat.lt_succ_self _)
    have hreach := growCluster_reach bufs (st.2 + 1) (countNeg st.1 + 1) st.1 [k]
      (fun j hj => by rw [List.mem_singleton.1 hj]; exact hk)
    have hF : ∀ j, j < bufs.length →
        (growCluster bufs (st.2 + 1) (countNeg st.1 + 1) st.1 [k]).1.getD j 0 = -1 →
        intersects (bufs.getD j ∅)
          (unionOver bufs
            (growCluster bufs (st.2 + 1) (countNeg st.1 + 1) st.1 [k]).2) ≠ true := by
      intro j hjb hjneg hint
      have hmem : j ∈ overlapIdxs bufs
          (growCluster bufs (st.2 + 1) (countNeg st.1 + 1) st.1 [k]).1
          (unionOver bufs
            (growCluster bufs (st.2 + 1) (countNeg st.1 + 1) st.1 [k]).2) :=
        mem_overlapIdxs.2 ⟨hjb, hjneg, hint⟩
      rw [hfix] at hmem
      exact absurd hmem (List.not_mem_nil j)
    have hKB : ∀ j, ReachB bufs k j →
        (growCluster bufs (st.2 + 1) (countNeg st.1 + 1) st.1 [k]).1.getD j 0
          = st.2 + 1 := by
      intro j hr
      induction hr with
      | refl =>
          by_cases hc : (growCluster bufs (st.2 + 1) (countNeg st.1 + 1)
              st.1 [k]).1.getD k 0 = st.1.getD k 0
          · exfalso
            have hkres : k ∈ (growCluster bufs (st.2 + 1)
                (countNeg st.1 + 1) st.1 [k]).2 :=
              m4 k (List.mem_singleton.2 rfl)
            have hint : intersects (bufs.getD k ∅)
                (unionOver bufs (growCluster bufs (st.2 + 1)
                  (countNeg st.1 + 1) st.1 [k]).2) = true :=
              intersects_mono (intersects_self (hne k hk)) (buf_subset_unionOver hkres)
            exact hF k hk (by rw [hc, hkneg]) hint
          · exact (m2 k hc).1
      | @tail p q hp hq ihv =>
          obtain ⟨hpn, hqn, hpq⟩ := hq
          have hbst : st.1.getD p 0 ≠ st.2 + 1 := by
            rcases h.valRange p hpn with hv | ⟨hv1, hv2⟩ <;> omega
          have hbchanged : (growCluster bufs (st.2 + 1) (countNeg st.1 + 1)
              st.1 [k]).1.getD p 0 ≠ st.1.getD p 0 := by
            rw [ihv]
            exact fun hh => hbst hh.symm
          have hbmem : p ∈ (growCluster bufs (st.2 + 1)
              (countNeg st.1 + 1) st.1 [k]).2 :=
            (m2 p hbchanged).2.2.1
          by_cases hcres : (growCluster bufs (st.2 + 1) (countNeg st.1 + 1)
              st.1 [k]).1.getD q 0 = -1
          · exfalso
            have h1 : intersects (bufs.getD q ∅) (bufs.getD p ∅) = true := by
              rw [intersects_symm]
              exact hpq
            have hint : intersects (bufs.getD q ∅)
                (unionOver bufs (growCluster bufs (st.2 + 1)
                  (countNeg st.1 + 1) st.1 [k]).2) = true :=
              intersects_mono h1 (buf_subset_unionOver hbmem)
            exact hF q hqn hcres hint
          · by_cases hceq : (growCluster bufs (st.2 + 1) (countNeg st.1 + 1)
                st.1 [k]).1.getD q 0 = st.2 + 1
            · exact hceq
            · exfalso
              have hcunch : (growCluster bufs (st.2 + 1) (countNeg st.1 + 1)
                  st.1 [k]).1.getD q 0 = st.1.getD q 0 := by
                by_contra hcc
                exact hceq (m2 q hcc).1
              have hstc : st.1.getD q 0 ≠ -1 := by
                rw [← hcunch]
                exact hcres
              have hstb : st.1.getD p 0 = st.1.getD q 0 :=
                h.closure q p (AdjB_symm ⟨hpn, hqn, hpq⟩) hstc
              rcases m3 p hbmem with hb1 | ⟨_, hb2, _⟩
              · rw [List.mem_singleton.1 hb1, hkneg] at hstb
                exact hstc hstb.symm
              · rw [hb2] at hstb
                exact hstc hstb.symm
    have hKA : ∀ j, (growCluster bufs (st.2 + 1) (countNeg st.1 + 1)
        st.1 [k]).1.getD j 0 = st.2 + 1 → ReachB bufs k j ∧ j < bufs.length := by
      intro j hj
      have hst : st.1.getD j 0 ≠ st.2 + 1 := by
        by_cases hjb : j < bufs.length
        · rcases h.valRange j hjb with hv | ⟨hv1, hv2⟩ <;> omega
        · rw [getD_of_length_le (h.len ▸ Nat.le_of_not_lt hjb)]
          omega
      have hchanged : (growCluster bufs (st.2 + 1) (countNeg st.1 + 1)
          st.1 [k]).1.getD j 0 ≠ st.1.getD j 0 := by
        rw [hj]
        exact fun hh => hst hh.symm
      obtain ⟨_, _, hjm, hjb⟩ := m2 j hchanged
      obtain ⟨t, ht, hr⟩ := hreach j hjm
      rw [List.mem_singleton.1 ht] at hr
      exact ⟨hr, hjb⟩
    refine ⟨by rw [m1]; exact h.len, by omega, ?_, ?_, ?_, ?_⟩
    · intro j hjb
      by_cases hch : (growCluster bufs (st.2 + 1) (countNeg st.1 + 1)
          st.1 [k]).1.getD j 0 = st.1.getD j 0
      · rw [hch]
        rcases h.valRange j hjb with hv | ⟨h1, h2⟩
        · exact Or.inl hv
        · exact Or.inr ⟨h1, by omega⟩
      · rw [(m2 j hch).1]
        exact Or.inr ⟨by omega, le_refl _⟩
    · intro j hj
      rcases Nat.lt_succ_iff_lt_or_eq.1 hj with hjk | rfl
      · have hst := h.assigned j hjk
        by_cases hch : (growCluster bufs (st.2 + 1) (countNeg st.1 + 1)
            st.1 [k]).1.getD j 0 = st.1.getD j 0
        · rw [hch]
          exact hst
        · rw [(m2 j hch).1]
          omega
      · rw [hKB j Relation.ReflTransGen.refl]
        omega
    · intro a b hadj hna
      by_cases hac : (growCluster bufs (st.2 + 1) (countNeg st.1 + 1)
          st.1 [k]).1.getD a 0 = st.2 + 1
      · have hra := hKA a hac
        have hrb : ReachB bufs k b := Relation.ReflTransGen.tail hra.1 hadj
        rw [hKB b hrb, hac]
      · have haunch : (growCluster bufs (st.2 + 1) (countNeg st.1 + 1)
            st.1 [k]).1.getD a 0 = st.1.getD a 0 := by
          by_contra hcc
          exact hac (m2 a hcc).1
        have hsta : st.1.getD a 0 ≠ -1 := by
          rw [← haunch]
          exact hna
        have hstb : st.1.getD b 0 = st.1.getD a 0 := h.closure a b hadj hsta
        have hbunch : (growCluster bufs (st.2 + 1) (countNeg st.1 + 1)
            st.1 [k]).1.getD b 0 = st.1.getD b 0 := by
          by_contra hcc
          obtain ⟨_, hbneg, _, _⟩ := m2 b hcc
          rw [hstb] at hbneg
          exact hsta hbneg
        rw [hbunch, hstb, haunch]
    · intro a b hab hbb hna heq
      by_cases hac : (growCluster bufs (st.2 + 1) (countNeg st.1 + 1)
          st.1 [k]).1.getD a 0 = st.2 + 1
      · have hrb : (growCluster bufs (st.2 + 1) (countNeg st.1 + 1)
            st.1 [k]).1.getD b 0 = st.2 + 1 := by
          rw [← heq, hac]
        exact Relation.ReflTransGen.trans (ReachB_symm (hKA a hac).1) (hKA b hrb).1
      · have haunch : (growCluster bufs (st.2 + 1) (countNeg st.1 + 1)
            st.1 [k]).1.getD a 0 = st.1.getD a 0 := by
          by_contra hcc
          exact hac (m2 a hcc).1
        have hbc : (growCluster bufs (st.2 + 1) (countNeg st.1 + 1)
            st.1 [k]).1.getD b 0 ≠ st.2 + 1 := by
          rw [← heq]
          exact hac
        have hbunch : (growCluster bufs (st.2 + 1) (countNeg st.1 + 1)
            st.1 [k]).1.getD b 0 = st.1.getD b 0 := by
          by_contra hcc
          exact hbc (m2 b hcc).1
        exact h.sameReach a b hab hbb (by rw [← haunch]; exact hna)
          (by rw [← haunch, ← hbunch]; exact heq)

theorem getD_replicate_neg {n j : ℕ} (hj : j < n) :
    (List.replicate n (-1 : ℤ)).getD j 0 = -1 := by
  rw [List.getD_eq_getElem?_getD, List.getElem?_replicate, if_pos hj]
  rfl

theorem outerInv_init (bufs : List Geom) (n : ℕ) (hn : n = bufs.length) :
    OuterInv bufs 0 (List.replicate n (-1), 0) := by
  refine ⟨by simp [hn], le_refl 0, ?_, ?_, ?_, ?_⟩
  · intro j hj
    exact Or.inl (getD_replicate_neg (hn ▸ hj))
  · intro j hj
    omega
  · intro a b hadj hna
    exact absurd (getD_replicate_neg (hn ▸ hadj.1)) hna
  · intro a b hab hbb hna _
    exact absurd (getD_replicate_neg (hn ▸ hab)) hna

theorem outerInv_fold (bufs : List Geom)
    (hne : ∀ j, j < bufs.length → (bufs.getD j ∅).Nonempty)
    (n : ℕ) (hn : n = bufs.length) :
    ∀ m, m ≤ n → OuterInv bufs m
      ((List.range m).foldl (clusterStep bufs) (List.replicate n (-1), 0)) := by
  intro m
  induction m with
  | zero =>
      intro _
      exact outerInv_init bufs n hn
  | succ m ih =>
      intro hm
      rw [List.range_succ, List.foldl_append, List.foldl_cons, List.foldl_nil]
      exact clusterStep_inv bufs hne m (by omega) _ (ih (by omega))

/-- Full characterization of create_growth_clusters on inputs whose
geometries are all nonempty: the id list has one entry per feature, every
id is at least 1, and two features carry the same id exactly when they
are connected through buffered intersections. -/
theorem clusters_characterization (geoms : List Geom) (r : ℕ)
    (hne : ∀ g ∈ geoms, g.Nonempty) :
    (create_growth_clusters geoms r).length = geoms.length ∧
    (∀ j, j < geoms.length → 1 ≤ (create_growth_clusters geoms r).getD j 0) ∧
    (∀ a b, a < geoms.length → b < geoms.length →
      ((create_growth_clusters geoms r).getD a 0 =
        (create_growth_clusters geoms r).getD b 0 ↔ Connected geoms r a b)) := by
  have hlenb : (geoms.map (buffer r)).length = geoms.length := List.length_map _ _
  have hneb : ∀ j, j < (geoms.map (buffer r)).length →
      ((geoms.map (buffer r)).getD j ∅).Nonempty := by
    intro j hj
    rw [hlenb] at hj
    rw [getD_map_buffer hj]
    have hg : geoms.getD j ∅ = geoms[j] := by
      rw [List.getD_eq_getElem?_getD, List.getElem?_eq_getElem hj]
      rfl
    rw [hg]
    exact buffer_nonempty (hne _ (List.getElem_mem hj))
  have hinv := outerInv_fold (geoms.map (buffer r)) hneb geoms.length hlenb.symm
    geoms.length (le_refl _)
  have hcgc : create_growth_clusters geoms r =
      ((List.range geoms.length).foldl (clusterStep (geoms.map (buffer r)))
        (List.replicate geoms.length (-1), 0)).1 := rfl
  refine ⟨?_, ?_, ?_⟩
  · rw [hcgc, hinv.len, hlenb]
  · intro j hj
    rw [hcgc]
    have hne1 := hinv.assigned j hj
    rcases hinv.valRange j (hlenb ▸ hj) with hv | ⟨h1, _⟩
    · exact absurd hv hne1
    · exact h1
  · intro a b ha hb
    rw [hcgc]
    constructor
    · intro heq
      rw [Connected_eq_ReachB]
      exact hinv.sameReach a b (hlenb ▸ ha) (hlenb ▸ hb) (hinv.assigned a ha) heq
    · intro hconn
      rw [Connected_eq_ReachB] at hconn
      have hna := hinv.assigned a ha
      have hstep : ∀ c, ReachB (geoms.map (buffer r)) a c →
          ((List.range geoms.length).foldl (clusterStep (geoms.map (buffer r)))
            (List.replicate geoms.length (-1), 0)).1.getD c 0 =
          ((List.range geoms.length).foldl (clusterStep (geoms.map (buffer r)))
            (List.replicate geoms.length (-1), 0)).1.getD a 0 := by
        intro c hc
        induction hc with
        | refl => rfl
        | @tail p q hp hq ihp =>
            have hpne : ((List.range geoms.length).foldl
                (clusterStep (geoms.map (buffer r)))
                (List.replicate geoms.length (-1), 0)).1.getD p 0 ≠ -1 := by
              rw [ihp]
              exact hna
            rw [hinv.closure p q hq hpne, ihp]
      exact (hstep b hconn).symm

/-- C1: for every input collection of expansion polygons and buffer
distance, create_growth_clusters annotates every feature with an integer
cluster id at least 1 (none is left at the sentinel -1), and two features
get the same id exactly when they are linked by a chain of features whose
consecutive buffered geometries intersect. -/
theorem growth_clusters_partition_correct (geoms : List Geom) (r : ℕ)
    (hne : ∀ g ∈ geoms, g.Nonempty) :
    (create_growth_clusters geoms r).length = geoms.length ∧
    (∀ j, j < geoms.length →
      1 ≤ (create_growth_clusters geoms r).getD j 0 ∧
      (create_growth_clusters geoms r).getD j 0 ≠ -1) ∧
    (∀ a b, a < geoms.length → b < geoms.length →
      ((create_growth_clusters geoms r).getD a 0 =
        (create_growth_clusters geoms r).getD b 0 ↔ Connected geoms r a b)) := by
  obtain ⟨h1, h2, h3⟩ := clusters_characterization geoms r hne
  exact ⟨h1, fun j hj => ⟨h2 j hj, by have := h2 j hj; omega⟩, h3⟩

theorem growth_clusters_partition_correct_witness :
    (∀ g ∈ [({((0 : ℤ), (0 : ℤ))} : Geom), {((0 : ℤ), (3 : ℤ))},
        {((100 : ℤ), (100 : ℤ))}], g.Nonempty) ∧
    ((create_growth_clusters [({((0 : ℤ), (0 : ℤ))} : Geom), {((0 : ℤ), (3 : ℤ))},
        {((100 : ℤ), (100 : ℤ))}] 2).length =
      [({((0 : ℤ), (0 : ℤ))} : Geom), {((0 : ℤ), (3 : ℤ))},
        {((100 : ℤ), (100 : ℤ))}].length ∧
    (∀ j, j < [({((0 : ℤ), (0 : ℤ))} : Geom), {((0 : ℤ), (3 : ℤ))},
        {((100 : ℤ), (100 : ℤ))}].length →
      1 ≤ (create_growth_clusters [({((0 : ℤ), (0 : ℤ))} : Geom),
        {((0 : ℤ), (3 : ℤ))}, {((100 : ℤ), (100 : ℤ))}] 2).getD j 0 ∧
      (create_growth_clusters [({((0 : ℤ), (0 : ℤ))} : Geom),
        {((0 : ℤ), (3 : ℤ))}, {((100 : ℤ), (100 : ℤ))}] 2).getD j 0 ≠ -1) ∧
    (∀ a b, a < [({((0 : ℤ), (0 : ℤ))} : Geom), {((0 : ℤ), (3 : ℤ))},
        {((100 : ℤ), (100 : ℤ))}].length →
      b < [({((0 : ℤ), (0 : ℤ))} : Geom), {((0 : ℤ), (3 : ℤ))},
        {((100 : ℤ), (100 : ℤ))}].length →
      ((create_growth_clusters [({((0 : ℤ), (0 : ℤ))} : Geom),
          {((0 : ℤ), (3 : ℤ))}, {((100 : ℤ), (100 : ℤ))}] 2).getD a 0 =
        (create_growth_clusters [({((0 : ℤ), (0 : ℤ))} : Geom),
          {((0 : ℤ), (3 : ℤ))}, {((100 : ℤ), (100 : ℤ))}] 2).getD b 0 ↔
        Connected [({((0 : ℤ), (0 : ℤ))} : Geom), {((0 : ℤ), (3 : ℤ))},
          {((100 : ℤ), (100 : ℤ))}] 2 a b))) :=
  ⟨by decide, growth_clusters_partition_correct _ 2 (by decide)⟩

theorem Connected_perm_transport (geoms geoms2 : List Geom) (r : ℕ)
    (π : Equiv.Perm (Fin geoms.length))
    (hlen : geoms2.length = geoms.length)
    (hperm : ∀ i : Fin geoms.length, geoms2.getD (π i).val ∅ = geoms.getD i.val ∅) :
    ∀ a b : Fin geoms.length,
      (Connected geoms2 r (π a).val (π b).val ↔ Connected geoms r a.val b.val) := by
  have hAdj : ∀ c d : Fin geoms.length,
      (Adjacent geoms2 r (π c).val (π d).val ↔ Adjacent geoms r c.val d.val) := by
    intro c d
    unfold Adjacent
    constructor
    · rintro ⟨_, _, hi⟩
      exact ⟨c.2, d.2, by rwa [hperm c, hperm d] at hi⟩
    · rintro ⟨_, _, hi⟩
      exact ⟨by rw [hlen]; exact (π c).2, by rw [hlen]; exact (π d).2,
        by rwa [hperm c, hperm d]⟩
  have fwd : ∀ (a : Fin geoms.length) (m : ℕ), Connected geoms r a.val m →
      ∀ hm : m < geoms.length, Connected geoms2 r (π a).val (π ⟨m, hm⟩).val := by
    intro a m h
    induction h with
    | refl =>
        intro hm
        have he : (⟨a.val, hm⟩ : Fin geoms.length) = a := Fin.ext rfl
        rw [he]
        exact Relation.ReflTransGen.refl
    | @tail p q hp hq ih =>
        intro hq2
        have hpb : p < geoms.length := hq.1
        have hstep : Adjacent geoms2 r (π ⟨p, hpb⟩).val (π ⟨q, hq2⟩).val :=
          (hAdj ⟨p, hpb⟩ ⟨q, hq2⟩).2 hq
        exact Relation.ReflTransGen.tail (ih hpb) hstep
  have bwd : ∀ (a : Fin geoms.length) (m : ℕ), Connected geoms2 r (π a).val m →
      ∀ hm : m < geoms.length, Connected geoms r a.val (π.symm ⟨m, hm⟩).val := by
    intro a m h
    induction h with
    | refl =>
        intro hm
        have he : (⟨(π a).val, hm⟩ : Fin geoms.length) = π a := Fin.ext rfl
        rw [he, Equiv.symm_apply_apply]
        exact Relation.ReflTransGen.refl
    | @tail p q hp hq ih =>
        intro hmq
        have hpb : p < geoms.length := hlen ▸ hq.1
        have hstep : Adjacent geoms r (π.symm ⟨p, hpb⟩).val (π.symm ⟨q, hmq⟩).val := by
          apply (hAdj (π.symm ⟨p, hpb⟩) (π.symm ⟨q, hmq⟩)).1
          rw [Equiv.apply_symm_apply, Equiv.apply_symm_apply]
          exact hq
        exact Relation.ReflTransGen.tail (ih hpb) hstep
  intro a b
  constructor
  · intro h
    have hb := bwd a (π b).val h (π b).2
    rw [show (⟨(π b).val, (π b).2⟩ : Fin geoms.length) = π b from Fin.ext rfl,
      Equiv.symm_apply_apply] at hb
    exact hb
  · intro h
    have hb := fwd a b.val h b.2
    rw [show (⟨b.val, b.2⟩ : Fin geoms.length) = b from Fin.ext rfl] at hb
    exact hb

/-- C2: cluster membership is order-independent.  For a permuted copy of
the input collection, two features carry equal cluster ids in the
permuted run exactly when their originals carry equal cluster ids in the
original run (the partition is the same even though the numbering may
differ). -/
theorem growth_clusters_order_independent (geoms geoms2 : List Geom) (r : ℕ)
    (hne : ∀ g ∈ geoms, g.Nonempty)
    (π : Equiv.Perm (Fin geoms.length))
    (hlen : geoms2.length = geoms.length)
    (hperm : ∀ i : Fin geoms.length, geoms2.getD (π i).val ∅ = geoms.getD i.val ∅) :
    ∀ a b : Fin geoms.length,
      ((create_growth_clusters geoms2 r).getD (π a).val 0 =
        (create_growth_clusters geoms2 r).getD (π b).val 0 ↔
       (create_growth_clusters geoms r).getD a.val 0 =
        (create_growth_clusters geoms r).getD b.val 0) := by
  have hne2 : ∀ g ∈ geoms2, g.Nonempty := by
    intro g hg
    obtain ⟨j, hj, hgj⟩ := List.getElem_of_mem hg
    have hj2 : j < geoms.length := hlen ▸ hj
    have h1 : geoms2.getD (π (π.symm ⟨j, hj2⟩)).val ∅ =
        geoms.getD (π.symm ⟨j, hj2⟩).val ∅ := hperm _
    rw [Equiv.apply_symm_apply] at h1
    have h2 : geoms2.getD j ∅ = g := by
      rw [List.getD_eq_getElem?_getD, List.getElem?_eq_getElem hj]
      exact hgj
    have h3 : geoms.getD (π.symm ⟨j, hj2⟩).val ∅ ∈ geoms := by
      have hb := (π.symm ⟨j, hj2⟩).2
      rw [List.getD_eq_getElem?_getD, List.getElem?_eq_getElem hb]
      exact List.getElem_mem hb
    rw [← h2, h1]
    exact hne _ h3
  obtain ⟨_, _, hiff⟩ := clusters_characterization geoms r hne
  obtain ⟨_, _, hiff2⟩ := clusters_characterization geoms2 r hne2
  intro a b
  rw [hiff2 _ _ (by rw [hlen]; exact (π a).2) (by rw [hlen]; exact (π b).2),
    hiff _ _ a.2 b.2]
  exact Connected_perm_transport geoms geoms2 r π hlen hperm a b

theorem growth_clusters_order_independent_witness :
    (∀ g ∈ [({((0 : ℤ), (0 : ℤ))} : Geom), {((5 : ℤ), (5 : ℤ))}], g.Nonempty) ∧
    ([({((5 : ℤ), (5 : ℤ))} : Geom), {((0 : ℤ), (0 : ℤ))}].length =
      [({((0 : ℤ), (0 : ℤ))} : Geom), {((5 : ℤ), (5 : ℤ))}].length) ∧
    (∀ i : Fin 2,
      [({((5 : ℤ), (5 : ℤ))} : Geom), {((0 : ℤ), (0 : ℤ))}].getD
        ((Equiv.swap (0 : Fin 2) 1) i).val ∅ =
      [({((0 : ℤ), (0 : ℤ))} : Geom), {((5 : ℤ), (5 : ℤ))}].getD i.val ∅) ∧
    (∀ a b : Fin 2,
      ((create_growth_clusters [({((5 : ℤ), (5 : ℤ))} : Geom),
          {((0 : ℤ), (0 : ℤ))}] 3).getD ((Equiv.swap (0 : Fin 2) 1) a).val 0 =
        (create_growth_clusters [({((5 : ℤ), (5 : ℤ))} : Geom),
          {((0 : ℤ), (0 : ℤ))}] 3).getD ((Equiv.swap (0 : Fin 2) 1) b).val 0 ↔
       (create_growth_clusters [({((0 : ℤ), (0 : ℤ))} : Geom),
          {((5 : ℤ), (5 : ℤ))}] 3).getD a.val 0 =
        (create_growth_clusters [({((0 : ℤ), (0 : ℤ))} : Geom),
          {((5 : ℤ), (5 : ℤ))}] 3).getD b.val 0)) :=
  ⟨by decide, by decide, by decide,
    growth_clusters_order_independent
      [({((0 : ℤ), (0 : ℤ))} : Geom), {((5 : ℤ), (5 : ℤ))}]
      [({((5 : ℤ), (5 : ℤ))} : Geom), {((0 : ℤ), (0 : ℤ))}] 3 (by decide)
      (Equiv.swap (0 : Fin 2) (1 : Fin 2)) (by decide) (by decide)⟩

/-! ## Overlay Engine and create_intersections (src/stats_utils.py)

A vector feature is an attribute mapping plus a polygonal cell-set
geometry; gpd.overlay with how intersection pairs up overlapping rows and
merges attributes (the pandas column suffixing of colliding keys is
modelled by plain concatenation of the two attribute lists), while how
difference subtracts the union of the second layer from each row of the
first and drops rows whose geometry becomes empty.  The restriction
layers are taken already reprojected to the raster grid (the to_crs
calls), as the spec makes CRS alignment a caller duty. -/

/-- Value of a feature attribute (numeric raster value or text label). -/
inductive PVal
  | str (s : String)
  | num (q : ℚ)
deriving DecidableEq

/-- A vector feature: attribute mapping plus geometry. -/
structure Feature where
  props : List (String × PVal)
  geom : Geom
deriving DecidableEq

/-- gpd.overlay(A, B, how="intersection"). -/
def overlay_intersection (A B : List Feature) : List Feature :=
  A.flatMap (fun a =>
    (B.filter (fun b => intersects a.geom b.geom)).map
      (fun b => ⟨a.props ++ b.props, a.geom ∩ b.geom⟩))

/-- Union of the geometries of a Feature Collection. -/
def unionGeoms (l : List Feature) : Geom := unaryUnion (l.map (fun f => f.geom))

/-- gpd.overlay(A, B, how="difference"). -/
def overlay_difference (A B : List Feature) : List Feature :=
  (A.map (fun a => Feature.mk a.props (a.geom \ unionGeoms B))).filter
    (fun f => decide f.geom.Nonempty)

/-- Geometry kind tag of a shape produced by rasterio.features.shapes. -/
inductive GeomKind
  | polygon
  | multiPolygon
  | other
deriving DecidableEq

/-- One shape yielded by rasterio.features.shapes on the positive-mask
raster: a GeoJSON-like geometry of some kind plus its pixel value. -/
structure RawShape where
  kind : GeomKind
  geom : Geom
  value : ℚ
deriving DecidableEq

/-- The geometry-type filter inside create_intersections: keep only
shapes whose GeoJSON type is Polygon or MultiPolygon, tagging each with
its raster value; anything else is skipped. -/
def vectorize (results : List RawShape) : List Feature :=
  (results.filter (fun s => s.kind == GeomKind.polygon ||
      s.kind == GeomKind.multiPolygon)).map
    (fun s => Feature.mk [("value", PVal.num s.value)] s.geom)

instance instDecEqExcept {e a : Type} [DecidableEq e] [DecidableEq a] :
    DecidableEq (Except e a)
  | Except.ok x, Except.ok y =>
      if h : x = y then isTrue (congrArg Except.ok h)
      else isFalse (fun hh => h (Except.ok.inj hh))
  | Except.ok _, Except.error _ => isFalse (fun hh => Except.noConfusion hh)
  | Except.error _, Except.ok _ => isFalse (fun hh => Except.noConfusion hh)
  | Except.error x, Except.error y =>
      if h : x = y then isTrue (congrArg Except.error h)
      else isFalse (fun hh => h (Except.error.inj hh))

/-- Error kind named by the spec for the vectorization step.  The source
create_intersections never raises it: the constructor is representable so
that not-raising is a provable statement. -/
inductive GeoError
  | invalidGeometryKind
deriving DecidableEq

/-- The pd.concat of the three per-layer overlays inside
create_intersections (the local gdf_inter). -/
def gdfInter (features gdf_sac gdf_res gdf_eep : List Feature) : List Feature :=
  overlay_intersection features gdf_sac ++
    overlay_intersection features gdf_res ++
    overlay_intersection features gdf_eep

/-- create_intersections (src/stats_utils.py): vectorize the positive
raster mask, overlay with the three restriction layers, and write the
intersecting and (when reached) non-intersecting artifacts.  The result
lists the written files in order: name and Feature Collection. -/
def create_intersections (base : String) (results : List RawShape)
    (gdf_sac gdf_res gdf_eep : List Feature) :
    Except GeoError (List (String × List Feature)) :=
  if results.isEmpty then
    .ok [(base ++ "_intersections.geojson", [])]
  else if (vectorize results).isEmpty then
    .ok [(base ++ "_intersections.geojson", [])]
  else if (gdfInter (vectorize results) gdf_sac gdf_res gdf_eep).isEmpty then
    .ok [(base ++ "_intersections.geojson",
          gdfInter (vectorize results) gdf_sac gdf_res gdf_eep),
         (base ++ "_no_intersections.geojson", vectorize results)]
  else
    .ok [(base ++ "_intersections.geojson",
          gdfInter (vectorize results) gdf_sac gdf_res gdf_eep),
         (base ++ "_no_intersections.geojson",
          overlay_difference (vectorize results)
            (gdfInter (vectorize results) gdf_sac gdf_res gdf_eep))]

/-- Look up the collection written under a given artifact name. -/
def writtenColl (out : List (String × List Feature)) (name : String) :
    Option (List Feature) :=
  (out.find? (fun p => p.1 == name)).map (fun p => p.2)

/-- Modelled from the spec composition rule: the intersecting set is the
concatenation (deduplicated by concatenation, not geometric dissolution)
of the per-layer overlays intersection(expansion, restriction_i). -/
def specIntersecting (E sac res eep : List Feature) : List Feature :=
  overlay_intersection E sac ++ overlay_intersection E res ++
    overlay_intersection E eep

/-- Modelled from the spec composition rule: the non-intersecting set is
difference(expansion, intersecting). -/
def specNonIntersecting (E sac res eep : List Feature) : List Feature :=
  overlay_difference E (specIntersecting E sac res eep)

theorem mem_overlay_intersection {A B : List Feature} {f : Feature} :
    f ∈ overlay_intersection A B ↔
      ∃ a ∈ A, ∃ b ∈ B, intersects a.geom b.geom = true ∧
        f = Feature.mk (a.props ++ b.props) (a.geom ∩ b.geom) := by
  simp only [overlay_intersection, List.mem_flatMap, List.mem_map, List.mem_filter]
  constructor
  · rintro ⟨a, ha, b, ⟨hb, hi⟩, rfl⟩
    exact ⟨a, ha, b, hb, hi, rfl⟩
  · rintro ⟨a, ha, b, hb, hi, rfl⟩
    exact ⟨a, ha, b, ⟨hb, hi⟩, rfl⟩

theorem mem_overlay_difference {A B : List Feature} {f : Feature} :
    f ∈ overlay_difference A B ↔
      ∃ a ∈ A, f = Feature.mk a.props (a.geom \ unionGeoms B) ∧
        (a.geom \ unionGeoms B).Nonempty := by
  simp only [overlay_difference, List.mem_filter, List.mem_map, decide_eq_true_eq]
  constructor
  · rintro ⟨⟨a, ha, rfl⟩, hne⟩
    exact ⟨a, ha, rfl, hne⟩
  · rintro ⟨a, ha, rfl, hne⟩
    exact ⟨⟨a, ha, rfl⟩, hne⟩

theorem mem_unionGeoms {l : List Feature} {x : Cell} :
    x ∈ unionGeoms l ↔ ∃ f ∈ l, x ∈ f.geom := by
  simp only [unionGeoms, mem_unaryUnion, List.mem_map]
  constructor
  · rintro ⟨g, ⟨f, hf, rfl⟩, hx⟩
    exact ⟨f, hf, hx⟩
  · rintro ⟨f, hf, hx⟩
    exact ⟨f.geom, ⟨f, hf, rfl⟩, hx⟩

theorem geom_subset_unionGeoms {l : List Feature} {f : Feature} (h : f ∈ l) :
    f.geom ⊆ unionGeoms l := fun _ hx => mem_unionGeoms.2 ⟨f, h, hx⟩

theorem inter_name_ne_nointer_name (base : String) :
    (base ++ "_intersections.geojson") ≠ (base ++ "_no_intersections.geojson") := by
  intro h
  have hd := congrArg String.data h
  rw [String.data_append, String.data_append] at hd
  have h2 := List.append_cancel_left hd
  have h3 : ("_intersections.geojson" : String).data ≠
      ("_no_intersections.geojson" : String).data := by decide
  exact h3 h2

theorem writtenColl_nil (name : String) : writtenColl [] name = none := rfl

theorem writtenColl_cons (p : String × List Feature)
    (rest : List (String × List Feature)) (name : String) :
    writtenColl (p :: rest) name =
      if p.1 = name then some p.2 else writtenColl rest name := by
  by_cases h : p.1 = name
  · simp [writtenColl, List.find?_cons, h]
  · simp [writtenColl, List.find?_cons, h]

/-- Core of the partition property: for any expansion collection E and
any intersecting collection B each of whose rows is contained in some
expansion row, B and difference(E, B) have no overlapping area and
together cover E exactly. -/
theorem partition_disjoint_cover (E B : List Feature)
    (hB : ∀ f ∈ B, ∃ a ∈ E, f.geom ⊆ a.geom) :
    (∀ f ∈ B, ∀ g ∈ overlay_difference E B, f.geom ∩ g.geom = ∅) ∧
    unionGeoms (B ++ overlay_difference E B) = unionGeoms E := by
  constructor
  · intro f hf g hg
    obtain ⟨a, _, hfa, _⟩ := mem_overlay_difference.1 hg
    apply Finset.eq_empty_iff_forall_not_mem.2
    intro x hx
    have hx1 : x ∈ f.geom := (Finset.mem_inter.1 hx).1
    have hx2 : x ∈ g.geom := (Finset.mem_inter.1 hx).2
    rw [hfa] at hx2
    exact (Finset.mem_sdiff.1 hx2).2 (geom_subset_unionGeoms hf hx1)
  · apply Finset.ext
    intro x
    rw [mem_unionGeoms, mem_unionGeoms]
    constructor
    · rintro ⟨f, hf, hx⟩
      rcases List.mem_append.1 hf with hf | hf
      · obtain ⟨a, ha, hsub⟩ := hB f hf
        exact ⟨a, ha, hsub hx⟩
      · obtain ⟨a, ha, hfa, _⟩ := mem_overlay_difference.1 hf
        rw [hfa] at hx
        exact ⟨a, ha, (Finset.mem_sdiff.1 hx).1⟩
    · rintro ⟨a, ha, hx⟩
      by_cases hu : x ∈ unionGeoms B
      · obtain ⟨f, hf, hxf⟩ := mem_unionGeoms.1 hu
        exact ⟨f, List.mem_append.2 (Or.inl hf), hxf⟩
      · refine ⟨Feature.mk a.props (a.geom \ unionGeoms B),
          List.mem_append.2 (Or.inr ?_), ?_⟩
        · exact mem_overlay_difference.2
            ⟨a, ha, rfl, ⟨x, Finset.mem_sdiff.2 ⟨hx, hu⟩⟩⟩
        · exact Finset.mem_sdiff.2 ⟨hx, hu⟩

theorem gdfInter_rows_in_expansion (features sac res eep : List Feature) :
    ∀ f ∈ gdfInter features sac res eep, ∃ a ∈ features, f.geom ⊆ a.geom := by
  intro f hf
  rcases List.mem_append.1 hf with hf2 | hf2
  · rcases List.mem_append.1 hf2 with hf3 | hf3
    · obtain ⟨a, ha, b, _, _, rfl⟩ := mem_overlay_intersection.1 hf3
      exact ⟨a, ha, Finset.inter_subset_left⟩
    · obtain ⟨a, ha, b, _, _, rfl⟩ := mem_overlay_intersection.1 hf3
      exact ⟨a, ha, Finset.inter_subset_left⟩
  · obtain ⟨a, ha, b, _, _, rfl⟩ := mem_overlay_intersection.1 hf2
    exact ⟨a, ha, Finset.inter_subset_left⟩

/-- C4: whenever create_intersections writes both the intersecting and
the non-intersecting artifact, the two collections have zero pairwise
overlapping area and their union covers exactly the area of the
vectorized expansion collection. -/
theorem create_intersections_partition (base : String) (results : List RawShape)
    (sac res eep : List Feature) (out : List (String × List Feature))
    (interC noInterC : List Feature)
    (hout : create_intersections base results sac res eep = .ok out)
    (hI : writtenColl out (base ++ "_intersections.geojson") = some interC)
    (hN : writtenColl out (base ++ "_no_intersections.geojson") = some noInterC) :
    (∀ f ∈ interC, ∀ g ∈ noInterC, f.geom ∩ g.geom = ∅) ∧
    unionGeoms (interC ++ noInterC) = unionGeoms (vectorize results) := by
  have hne := inter_name_ne_nointer_name base
  unfold create_intersections at hout
  by_cases h1 : results.isEmpty
  · rw [if_pos h1] at hout
    have hout2 : [(base ++ "_intersections.geojson", ([] : List Feature))] = out :=
      by injection hout
    rw [← hout2, writtenColl_cons, if_neg hne, writtenColl_nil] at hN
    exact absurd hN (by simp)
  · rw [if_neg h1] at hout
    by_cases h2 : (vectorize results).isEmpty
    · rw [if_pos h2] at hout
      have hout2 : [(base ++ "_intersections.geojson", ([] : List Feature))] = out :=
        by injection hout
      rw [← hout2, writtenColl_cons, if_neg hne, writtenColl_nil] at hN
      exact absurd hN (by simp)
    · rw [if_neg h2] at hout
      by_cases h3 : (gdfInter (vectorize results) sac res eep).isEmpty
      · rw [if_pos h3] at hout
        have hout2 : [(base ++ "_intersections.geojson",
            gdfInter (vectorize results) sac res eep),
            (base ++ "_no_intersections.geojson", vectorize results)] = out :=
          by injection hout
        rw [← hout2, writtenColl_cons, if_pos rfl] at hI
        rw [← hout2, writtenColl_cons, if_neg hne, writtenColl_cons, if_pos rfl] at hN
        have hIe : interC = gdfInter (vectorize results) sac res eep :=
          (Option.some.inj hI).symm
        have hNe : noInterC = vectorize results := (Option.some.inj hN).symm
        have hempty : gdfInter (vectorize results) sac res eep = [] :=
          List.isEmpty_iff.1 h3
        subst hIe hNe
        constructor
        · intro f hf
          rw [hempty] at hf
          exact absurd hf (List.not_mem_nil f)
        · rw [hempty, List.nil_append]
      · rw [if_neg h3] at hout
        have hout2 : [(base ++ "_intersections.geojson",
            gdfInter (vectorize results) sac res eep),
            (base ++ "_no_intersections.geojson",
             overlay_difference (vectorize results)
               (gdfInter (vectorize results) sac res eep))] = out :=
          by injection hout
        rw [← hout2, writtenColl_cons, if_pos rfl] at hI
        rw [← hout2, writtenColl_cons, if_neg hne, writtenColl_cons, if_pos rfl] at hN
        have hIe : interC = gdfInter (vectorize results) sac res eep :=
          (Option.some.inj hI).symm
        have hNe : noInterC = overlay_difference (vectorize results)
            (gdfInter (vectorize results) sac res eep) := (Option.some.inj hN).symm
        subst hIe hNe
        exact partition_disjoint_cover (vectorize results)
          (gdfInter (vectorize results) sac res eep)
          (gdfInter_rows_in_expansion (vectorize results) sac res eep)

theorem create_intersections_partition_witness :
    (create_intersections "m"
        [RawShape.mk GeomKind.polygon {((0 : ℤ), (0 : ℤ)), ((1 : ℤ), (0 : ℤ))} 1]
        [Feature.mk [("capa", PVal.str "sac")] {((0 : ℤ), (0 : ℤ))}] [] [] =
      .ok [("m_intersections.geojson",
            [Feature.mk [("value", PVal.num 1), ("capa", PVal.str "sac")]
              {((0 : ℤ), (0 : ℤ))}]),
           ("m_no_intersections.geojson",
            [Feature.mk [("value", PVal.num 1)] {((1 : ℤ), (0 : ℤ))}])]) ∧
    (writtenColl [("m_intersections.geojson",
            [Feature.mk [("value", PVal.num 1), ("capa", PVal.str "sac")]
              {((0 : ℤ), (0 : ℤ))}]),
           ("m_no_intersections.geojson",
            [Feature.mk [("value", PVal.num 1)] {((1 : ℤ), (0 : ℤ))}])]
        ("m" ++ "_intersections.geojson") =
      some [Feature.mk [("value", PVal.num 1), ("capa", PVal.str "sac")]
        {((0 : ℤ), (0 : ℤ))}]) ∧
    (writtenColl [("m_intersections.geojson",
            [Feature.mk [("value", PVal.num 1), ("capa", PVal.str "sac")]
              {((0 : ℤ), (0 : ℤ))}]),
           ("m_no_intersections.geojson",
            [Feature.mk [("value", PVal.num 1)] {((1 : ℤ), (0 : ℤ))}])]
        ("m" ++ "_no_intersections.geojson") =
      some [Feature.mk [("value", PVal.num 1)] {((1 : ℤ), (0 : ℤ))}]) ∧
    ((∀ f ∈ [Feature.mk [("value", PVal.num 1), ("capa", PVal.str "sac")]
          {((0 : ℤ), (0 : ℤ))}],
        ∀ g ∈ [Feature.mk [("value", PVal.num 1)] {((1 : ℤ), (0 : ℤ))}],
          f.geom ∩ g.geom = ∅) ∧
      unionGeoms ([Feature.mk [("value", PVal.num 1), ("capa", PVal.str "sac")]
            {((0 : ℤ), (0 : ℤ))}] ++
          [Feature.mk [("value", PVal.num 1)] {((1 : ℤ), (0 : ℤ))}]) =
        unionGeoms (vectorize
          [RawShape.mk GeomKind.polygon
            {((0 : ℤ), (0 : ℤ)), ((1 : ℤ), (0 : ℤ))} 1])) :=
  ⟨by rfl, by decide, by decide,
    create_intersections_partition "m"
      [RawShape.mk GeomKind.polygon {((0 : ℤ), (0 : ℤ)), ((1 : ℤ), (0 : ℤ))} 1]
      [Feature.mk [("capa", PVal.str "sac")] {((0 : ℤ), (0 : ℤ))}] [] []
      [("m_intersections.geojson",
        [Feature.mk [("value", PVal.num 1), ("capa", PVal.str "sac")]
          {((0 : ℤ), (0 : ℤ))}]),
       ("m_no_intersections.geojson",
        [Feature.mk [("value", PVal.num 1)] {((1 : ℤ), (0 : ℤ))}])]
      [Feature.mk [("value", PVal.num 1), ("capa", PVal.str "sac")]
        {((0 : ℤ), (0 : ℤ))}]
      [Feature.mk [("value", PVal.num 1)] {((1 : ℤ), (0 : ℤ))}]
      (by rfl) (by decide) (by decide)⟩

/-- C5: on the normal path (nonempty vectorized collection, nonempty
concatenated overlay), create_intersections writes exactly the
spec-described pair: the intersecting artifact is the concatenation (not
a geometric dissolution) of the three per-layer overlays, so multi-layer
overlaps stay as separate rows with their per-layer attributes, and the
non-intersecting artifact is the geometric difference of the expansion
features with that concatenated set. -/
theorem create_intersections_concat_refinement (base : String)
    (results : List RawShape) (sac res eep : List Feature)
    (hfeat : vectorize results ≠ [])
    (hinter : specIntersecting (vectorize results) sac res eep ≠ []) :
    create_intersections base results sac res eep =
      .ok [(base ++ "_intersections.geojson",
            specIntersecting (vectorize results) sac res eep),
           (base ++ "_no_intersections.geojson",
            specNonIntersecting (vectorize results) sac res eep)] := by
  have h1 : ¬ results.isEmpty = true := by
    intro h
    rw [List.isEmpty_iff] at h
    subst h
    exact hfeat rfl
  have h2 : ¬ (vectorize results).isEmpty = true := fun h =>
    hfeat (List.isEmpty_iff.1 h)
  have h3 : ¬ (gdfInter (vectorize results) sac res eep).isEmpty = true := fun h =>
    hinter (List.isEmpty_iff.1 h)
  unfold create_intersections
  rw [if_neg h1, if_neg h2, if_neg h3]
  rfl

theorem create_intersections_concat_refinement_witness :
    (vectorize [RawShape.mk GeomKind.polygon
        {((0 : ℤ), (0 : ℤ)), ((1 : ℤ), (0 : ℤ))} 1] ≠ []) ∧
    (specIntersecting (vectorize [RawShape.mk GeomKind.polygon
          {((0 : ℤ), (0 : ℤ)), ((1 : ℤ), (0 : ℤ))} 1])
        [Feature.mk [("capa", PVal.str "sac")] {((0 : ℤ), (0 : ℤ))}]
        [Feature.mk [("capa", PVal.str "res")] {((0 : ℤ), (0 : ℤ))}] [] ≠ []) ∧
    create_intersections "m"
        [RawShape.mk GeomKind.polygon {((0 : ℤ), (0 : ℤ)), ((1 : ℤ), (0 : ℤ))} 1]
        [Feature.mk [("capa", PVal.str "sac")] {((0 : ℤ), (0 : ℤ))}]
        [Feature.mk [("capa", PVal.str "res")] {((0 : ℤ), (0 : ℤ))}] [] =
      .ok [("m" ++ "_intersections.geojson",
            specIntersecting (vectorize [RawShape.mk GeomKind.polygon
                {((0 : ℤ), (0 : ℤ)), ((1 : ℤ), (0 : ℤ))} 1])
              [Feature.mk [("capa", PVal.str "sac")] {((0 : ℤ), (0 : ℤ))}]
              [Feature.mk [("capa", PVal.str "res")] {((0 : ℤ), (0 : ℤ))}] []),
           ("m" ++ "_no_intersections.geojson",
            specNonIntersecting (vectorize [RawShape.mk GeomKind.polygon
                {((0 : ℤ), (0 : ℤ)), ((1 : ℤ), (0 : ℤ))} 1])
              [Feature.mk [("capa", PVal.str "sac")] {((0 : ℤ), (0 : ℤ))}]
              [Feature.mk [("capa", PVal.str "res")] {((0 : ℤ), (0 : ℤ))}] [])] :=
  ⟨by decide, by decide,
    create_intersections_concat_refinement "m"
      [RawShape.mk GeomKind.polygon {((0 : ℤ), (0 : ℤ)), ((1 : ℤ), (0 : ℤ))} 1]
      [Feature.mk [("capa", PVal.str "sac")] {((0 : ℤ), (0 : ℤ))}]
      [Feature.mk [("capa", PVal.str "res")] {((0 : ℤ), (0 : ℤ))}] []
      (by decide) (by decide)⟩

/-- C6 (code bug in the source): on an all-zero mask, rasterio shapes
yields no results and create_intersections writes only the empty
intersecting artifact before returning; the non-intersecting artifact the
spec requires is never written, so the output carries no entry under the
no_intersections name. -/
theorem create_intersections_empty_mask_single_artifact
    (sac res eep : List Feature) :
    create_intersections "new_urban" [] sac res eep =
      .ok [("new_urban" ++ "_intersections.geojson", [])] ∧
    (create_intersections "new_urban" [] sac res eep).toOption.bind
      (fun out => writtenColl out ("new_urban" ++ "_no_intersections.geojson")) =
      none := by
  constructor
  · rfl
  · show (Except.ok [("new_urban" ++ "_intersections.geojson",
        ([] : List Feature))] : Except GeoError _).toOption.bind
      (fun out => writtenColl out ("new_urban" ++ "_no_intersections.geojson")) = none
    show writtenColl [("new_urban" ++ "_intersections.geojson", [])]
      ("new_urban" ++ "_no_intersections.geojson") = none
    rw [writtenColl_cons, if_neg (inter_name_ne_nointer_name "new_urban"),
      writtenColl_nil]

/-- C8 counterexample: a vectorization run that produces a non-polygonal
shape terminates normally with an empty intersecting artifact; no
InvalidGeometryKind error is raised. -/
theorem create_intersections_nonpolygon_no_error :
    create_intersections "m" [RawShape.mk GeomKind.other {((0 : ℤ), (0 : ℤ))} 1]
        [] [] [] =
      Except.ok [("m" ++ "_intersections.geojson", [])] := rfl

theorem filter_filter_self {a : Type} (p : a → Bool) (l : List a) :
    (l.filter p).filter p = l.filter p := by
  rw [List.filter_filter]
  exact List.filter_congr (fun x _ => Bool.and_self (p x))

/-- C8 amended: in every vectorization run, a produced shape that is
neither polygon nor multi-polygon is silently filtered out rather than
raising an error: it never enters the vectorized collection, the written
artifacts are exactly those of the same run with the non-polygonal
shapes removed, and no run ever raises (every run returns a
written-artifact list). -/
theorem create_intersections_nonpolygon_filtered (base : String)
    (results : List RawShape) (gdf_sac gdf_res gdf_eep : List Feature) :
    vectorize results = vectorize (results.filter (fun s =>
      s.kind == GeomKind.polygon || s.kind == GeomKind.multiPolygon)) ∧
    create_intersections base results gdf_sac gdf_res gdf_eep =
      create_intersections base (results.filter (fun s =>
        s.kind == GeomKind.polygon || s.kind == GeomKind.multiPolygon))
        gdf_sac gdf_res gdf_eep ∧
    ∃ out, create_intersections base results gdf_sac gdf_res gdf_eep =
      Except.ok out := by
  have hidem : (results.filter (fun s =>
      s.kind == GeomKind.polygon || s.kind == GeomKind.multiPolygon)).filter
        (fun s => s.kind == GeomKind.polygon || s.kind == GeomKind.multiPolygon) =
      results.filter (fun s =>
        s.kind == GeomKind.polygon || s.kind == GeomKind.multiPolygon) :=
    filter_filter_self _ _
  have hv : vectorize results = vectorize (results.filter (fun s =>
      s.kind == GeomKind.polygon || s.kind == GeomKind.multiPolygon)) := by
    unfold vectorize
    rw [hidem]
  refine ⟨hv, ?_, ?_⟩
  · by_cases h1 : results.isEmpty = true
    · have h0 : results = [] := List.isEmpty_iff.1 h1
      subst h0
      rfl
    · by_cases h2 : (vectorize results).isEmpty = true
      · have hF : results.filter (fun s =>
            s.kind == GeomKind.polygon || s.kind == GeomKind.multiPolygon) = [] := by
          have h3 : vectorize results = [] := List.isEmpty_iff.1 h2
          unfold vectorize at h3
          exact List.map_eq_nil_iff.1 h3
        unfold create_intersections
        rw [if_neg h1, if_pos h2, hF]
        rfl
      · have hFne : ¬ (results.filter (fun s =>
            s.kind == GeomKind.polygon ||
              s.kind == GeomKind.multiPolygon)).isEmpty = true := by
          intro hh
          apply h2
          have h3 : results.filter (fun s =>
              s.kind == GeomKind.polygon || s.kind == GeomKind.multiPolygon) = [] :=
            List.isEmpty_iff.1 hh
          unfold vectorize
          rw [h3]
          rfl
        have h2b : ¬ (vectorize (results.filter (fun s =>
            s.kind == GeomKind.polygon ||
              s.kind == GeomKind.multiPolygon))).isEmpty = true := by
          rw [← hv]
          exact h2
        unfold create_intersections
        rw [if_neg h1, if_neg h2, if_neg hFne, if_neg h2b, ← hv]
  · unfold create_intersections
    by_cases h1 : results.isEmpty = true
    · rw [if_pos h1]
      exact ⟨_, rfl⟩
    · rw [if_neg h1]
      by_cases h2 : (vectorize results).isEmpty = true
      · rw [if_pos h2]
        exact ⟨_, rfl⟩
      · rw [if_neg h2]
        by_cases h3 : (gdfInter (vectorize results)
            gdf_sac gdf_res gdf_eep).isEmpty = true
        · rw [if_pos h3]
          exact ⟨_, rfl⟩
        · rw [if_neg h3]
          exact ⟨_, rfl⟩


/-! ## Zonal Aggregator: calculate_expansion_areas (src/stats_utils.py)

Rows of the UPL zone dataset carry the NOMBRE attribute; the aggregation
overlays the zones with each expansion collection, sums per-zone hectare
areas, outer-joins the two groupings on the zone name with missing sides
filled as 0, and derives total_ha = interseccion_ha + no_interseccion_ha. -/

/-- A tabular-and-spatial dataset: column names plus rows. -/
structure GeoDF where
  columns : List String
  rows : List Feature
deriving DecidableEq

/-- pandas column access on one row: first value stored under the key. -/
def getProp (f : Feature) (key : String) : Option PVal :=
  (f.props.find? (fun p => p.1 == key)).map (fun p => p.2)

/-- The zone name of a row: its NOMBRE attribute, when a string. -/
def zoneName (f : Feature) : Option String :=
  match getProp f "NOMBRE" with
  | some (PVal.str s) => some s
  | _ => none

/-- The area_ha column: geometry area in hectares (one cell is one
square metre of the equal-area working CRS). -/
def areaHa (f : Feature) : ℚ := (f.geom.card : ℚ) / 10000

/-- The group keys of groupby("NOMBRE"): the distinct zone names.
(pandas sorts the group keys; the row order of the table is immaterial to
every property stated here and is left unmodelled.) -/
def zoneNames (rows : List Feature) : List String :=
  (rows.filterMap zoneName).dedup

/-- Sum of area_ha over the rows of one zone. -/
def zoneSum (rows : List Feature) (nm : String) : ℚ :=
  ((rows.filter (fun f => zoneName f == some nm)).map areaHa).sum

/-- groupby("NOMBRE")["area_ha"].sum() as an association list. -/
def groupbySum (rows : List Feature) : List (String × ℚ) :=
  (zoneNames rows).map (fun nm => (nm, zoneSum rows nm))

/-- Value under a key in an association list, 0 when absent (the
fillna(0) of the outer merge). -/
def lookupD (l : List (String × ℚ)) (nm : String) : ℚ :=
  ((l.find? (fun p => p.1 == nm)).map (fun p => p.2)).getD 0

/-- pandas merge(..., on="NOMBRE", how="outer").fillna(0): one row per
zone name appearing on either side. -/
def mergeOuter (L R : List (String × ℚ)) : List (String × ℚ × ℚ) :=
  ((L.map (fun p => p.1)) ++ (R.map (fun p => p.1))).dedup.map
    (fun nm => (nm, lookupD L nm, lookupD R nm))

/-- One row of the resumen table. -/
structure ResumenRow where
  nombre : String
  interseccion_ha : ℚ
  no_interseccion_ha : ℚ
  total_ha : ℚ
deriving DecidableEq

/-- Error raised by the zonal aggregation when the UPL dataset lacks the
NOMBRE key (the ValueError of the source, carrying the column list). -/
inductive AreaError
  | missingColumn (available : List String)
deriving DecidableEq

/-- calculate_expansion_areas (src/stats_utils.py): check the UPL schema
before any overlay, overlay the zones with the intersecting and the
non-intersecting collections, compute per-zone hectare sums, outer-join
on the zone name with 0 for missing sides, and set total_ha to the sum
of the two columns. -/
def calculate_expansion_areas (gdf_no gdf_inter : List Feature)
    (gdf_upl : GeoDF) : Except AreaError (List ResumenRow) :=
  if "NOMBRE" ∉ gdf_upl.columns then
    .error (AreaError.missingColumn gdf_upl.columns)
  else
    .ok ((mergeOuter
        (groupbySum (overlay_intersection gdf_upl.rows gdf_inter))
        (groupbySum (overlay_intersection gdf_upl.rows gdf_no))).map
      (fun t => ResumenRow.mk t.1 t.2.1 t.2.2 (t.2.1 + t.2.2)))

/-- C7: if the UPL zone dataset lacks the NOMBRE attribute, the
aggregation fails with the propagated missing-attribute error and
produces no summary at all (no partial aggregation output; the schema
check precedes every overlay and write in the source). -/
theorem calculate_expansion_areas_missing_nombre
    (gdf_no gdf_inter : List Feature) (gdf_upl : GeoDF)
    (h : "NOMBRE" ∉ gdf_upl.columns) :
    calculate_expansion_areas gdf_no gdf_inter gdf_upl =
      .error (AreaError.missingColumn gdf_upl.columns) := by
  unfold calculate_expansion_areas
  rw [if_pos h]

theorem calculate_expansion_areas_missing_nombre_witness :
    ("NOMBRE" ∉ (GeoDF.mk ["NOM", "geometry"] []).columns) ∧
    calculate_expansion_areas [] [] (GeoDF.mk ["NOM", "geometry"] []) =
      .error (AreaError.missingColumn (GeoDF.mk ["NOM", "geometry"] []).columns) :=
  ⟨by decide,
    calculate_expansion_areas_missing_nombre [] []
      (GeoDF.mk ["NOM", "geometry"] []) (by decide)⟩

theorem find?_keyed_map (names : List String) (f : String → ℚ) (nm : String) :
    ((names.map (fun n => (n, f n))).find? (fun p => p.1 == nm)) =
      if nm ∈ names then some (nm, f nm) else none := by
  induction names with
  | nil => simp
  | cons n t ih =>
      by_cases h : n = nm
      · subst h
        simp [List.find?_cons]
      · rw [List.map_cons, List.find?_cons]
        have hbeq : ((n, f n).1 == nm) = false := by simp [h]
        rw [hbeq, ih]
        have h3 : ¬ nm = n := fun hh => h hh.symm
        by_cases h2 : nm ∈ t
        · simp [h2, List.mem_cons, h3]
        · simp [h2, List.mem_cons, h3]

theorem mem_zoneNames {rows : List Feature} {nm : String} :
    nm ∈ zoneNames rows ↔ ∃ f ∈ rows, zoneName f = some nm := by
  unfold zoneNames
  rw [List.mem_dedup, List.mem_filterMap]

theorem zoneSum_eq_zero_of_not_mem {rows : List Feature} {nm : String}
    (h : nm ∉ zoneNames rows) : zoneSum rows nm = 0 := by
  unfold zoneSum
  have hf : rows.filter (fun f => zoneName f == some nm) = [] := by
    rw [List.filter_eq_nil_iff]
    intro f hfm hbeq
    exact h (mem_zoneNames.2 ⟨f, hfm, by simpa using hbeq⟩)
  rw [hf]
  rfl

theorem lookupD_groupbySum (rows : List Feature) (nm : String) :
    lookupD (groupbySum rows) nm = zoneSum rows nm := by
  unfold lookupD groupbySum
  rw [find?_keyed_map]
  by_cases h : nm ∈ zoneNames rows
  · rw [if_pos h]
    rfl
  · rw [if_neg h]
    show (0 : ℚ) = zoneSum rows nm
    exact (zoneSum_eq_zero_of_not_mem h).symm

theorem keys_groupbySum (rows : List Feature) :
    (groupbySum rows).map (fun p => p.1) = zoneNames rows := by
  unfold groupbySum
  rw [List.map_map]
  exact List.map_id _

/-- C9: when the aggregation succeeds, every resumen row satisfies
total_ha = interseccion_ha + no_interseccion_ha exactly, each side equals
the per-zone hectare sum of the corresponding overlay (a zone missing on
one side contributes a zero sum), and the rows are exactly the zone names
appearing in either per-zone grouping (the outer join drops none). -/
theorem calculate_expansion_areas_total_identity
    (gdf_no gdf_inter : List Feature) (gdf_upl : GeoDF)
    (resumen : List ResumenRow)
    (h : calculate_expansion_areas gdf_no gdf_inter gdf_upl = .ok resumen) :
    (∀ row ∈ resumen,
      row.total_ha = row.interseccion_ha + row.no_interseccion_ha ∧
      row.interseccion_ha =
        zoneSum (overlay_intersection gdf_upl.rows gdf_inter) row.nombre ∧
      row.no_interseccion_ha =
        zoneSum (overlay_intersection gdf_upl.rows gdf_no) row.nombre) ∧
    (∀ nm : String,
      (nm ∈ zoneNames (overlay_intersection gdf_upl.rows gdf_inter) ∨
       nm ∈ zoneNames (overlay_intersection gdf_upl.rows gdf_no)) ↔
      ∃ row ∈ resumen, row.nombre = nm) := by
  unfold calculate_expansion_areas at h
  by_cases hc : "NOMBRE" ∉ gdf_upl.columns
  · rw [if_pos hc] at h
    exact absurd h (by simp)
  · rw [if_neg hc] at h
    have hres : (mergeOuter
        (groupbySum (overlay_intersection gdf_upl.rows gdf_inter))
        (groupbySum (overlay_intersection gdf_upl.rows gdf_no))).map
      (fun t => ResumenRow.mk t.1 t.2.1 t.2.2 (t.2.1 + t.2.2)) = resumen := by
      injection h
    constructor
    · intro row hrow
      rw [← hres] at hrow
      obtain ⟨t, ht, rfl⟩ := List.mem_map.1 hrow
      obtain ⟨nm, _, rfl⟩ := List.mem_map.1 ht
      exact ⟨rfl, lookupD_groupbySum _ nm, lookupD_groupbySum _ nm⟩
    · intro nm
      constructor
      · intro hmem
        refine ⟨ResumenRow.mk nm
          (lookupD (groupbySum (overlay_intersection gdf_upl.rows gdf_inter)) nm)
          (lookupD (groupbySum (overlay_intersection gdf_upl.rows gdf_no)) nm)
          (lookupD (groupbySum (overlay_intersection gdf_upl.rows gdf_inter)) nm +
           lookupD (groupbySum (overlay_intersection gdf_upl.rows gdf_no)) nm),
          ?_, rfl⟩
        rw [← hres]
        apply List.mem_map.2
        refine ⟨(nm,
          lookupD (groupbySum (overlay_intersection gdf_upl.rows gdf_inter)) nm,
          lookupD (groupbySum (overlay_intersection gdf_upl.rows gdf_no)) nm),
          ?_, rfl⟩
        apply List.mem_map.2
        refine ⟨nm, ?_, rfl⟩
        rw [List.mem_dedup, List.mem_append, keys_groupbySum, keys_groupbySum]
        exact hmem
      · rintro ⟨row, hrow, rfl⟩
        rw [← hres] at hrow
        obtain ⟨t, ht, rfl⟩ := List.mem_map.1 hrow
        obtain ⟨nm2, hnm2, rfl⟩ := List.mem_map.1 ht
        rw [List.mem_dedup, List.mem_append, keys_groupbySum,
          keys_groupbySum] at hnm2
        exact hnm2

theorem calculate_expansion_areas_total_identity_witness :
    (calculate_expansion_areas
        [Feature.mk [] {((9 : ℤ), (9 : ℤ))}]
        [Feature.mk [] {((0 : ℤ), (0 : ℤ)), ((0 : ℤ), (1 : ℤ))}]
        (GeoDF.mk ["NOMBRE", "geometry"]
          [Feature.mk [("NOMBRE", PVal.str "Salitre")]
            {((0 : ℤ), (0 : ℤ)), ((0 : ℤ), (1 : ℤ)), ((9 : ℤ), (9 : ℤ))}]) =
      .ok ((mergeOuter
          (groupbySum (overlay_intersection
            (GeoDF.mk ["NOMBRE", "geometry"]
              [Feature.mk [("NOMBRE", PVal.str "Salitre")]
                {((0 : ℤ), (0 : ℤ)), ((0 : ℤ), (1 : ℤ)), ((9 : ℤ), (9 : ℤ))}]).rows
            [Feature.mk [] {((0 : ℤ), (0 : ℤ)), ((0 : ℤ), (1 : ℤ))}]))
          (groupbySum (overlay_intersection
            (GeoDF.mk ["NOMBRE", "geometry"]
              [Feature.mk [("NOMBRE", PVal.str "Salitre")]
                {((0 : ℤ), (0 : ℤ)), ((0 : ℤ), (1 : ℤ)), ((9 : ℤ), (9 : ℤ))}]).rows
            [Feature.mk [] {((9 : ℤ), (9 : ℤ))}]))).map
        (fun t => ResumenRow.mk t.1 t.2.1 t.2.2 (t.2.1 + t.2.2)))) ∧
    ((∀ row ∈ (mergeOuter
          (groupbySum (overlay_intersection
            (GeoDF.mk ["NOMBRE", "geometry"]
              [Feature.mk [("NOMBRE", PVal.str "Salitre")]
                {((0 : ℤ), (0 : ℤ)), ((0 : ℤ), (1 : ℤ)), ((9 : ℤ), (9 : ℤ))}]).rows
            [Feature.mk [] {((0 : ℤ), (0 : ℤ)), ((0 : ℤ), (1 : ℤ))}]))
          (groupbySum (overlay_intersection
            (GeoDF.mk ["NOMBRE", "geometry"]
              [Feature.mk [("NOMBRE", PVal.str "Salitre")]
                {((0 : ℤ), (0 : ℤ)), ((0 : ℤ), (1 : ℤ)), ((9 : ℤ), (9 : ℤ))}]).rows
            [Feature.mk [] {((9 : ℤ), (9 : ℤ))}]))).map
        (fun t => ResumenRow.mk t.1 t.2.1 t.2.2 (t.2.1 + t.2.2)),
      row.total_ha = row.interseccion_ha + row.no_interseccion_ha ∧
      row.interseccion_ha =
        zoneSum (overlay_intersection
          (GeoDF.mk ["NOMBRE", "geometry"]
            [Feature.mk [("NOMBRE", PVal.str "Salitre")]
              {((0 : ℤ), (0 : ℤ)), ((0 : ℤ), (1 : ℤ)), ((9 : ℤ), (9 : ℤ))}]).rows
          [Feature.mk [] {((0 : ℤ), (0 : ℤ)), ((0 : ℤ), (1 : ℤ))}]) row.nombre ∧
      row.no_interseccion_ha =
        zoneSum (overlay_intersection
          (GeoDF.mk ["NOMBRE", "geometry"]
            [Feature.mk [("NOMBRE", PVal.str "Salitre")]
              {((0 : ℤ), (0 : ℤ)), ((0 : ℤ), (1 : ℤ)), ((9 : ℤ), (9 : ℤ))}]).rows
          [Feature.mk [] {((9 : ℤ), (9 : ℤ))}]) row.nombre) ∧
    (∀ nm : String,
      (nm ∈ zoneNames (overlay_intersection
          (GeoDF.mk ["NOMBRE", "geometry"]
            [Feature.mk [("NOMBRE", PVal.str "Salitre")]
              {((0 : ℤ), (0 : ℤ)), ((0 : ℤ), (1 : ℤ)), ((9 : ℤ), (9 : ℤ))}]).rows
          [Feature.mk [] {((0 : ℤ), (0 : ℤ)), ((0 : ℤ), (1 : ℤ))}]) ∨
       nm ∈ zoneNames (overlay_intersection
          (GeoDF.mk ["NOMBRE", "geometry"]
            [Feature.mk [("NOMBRE", PVal.str "Salitre")]
              {((0 : ℤ), (0 : ℤ)), ((0 : ℤ), (1 : ℤ)), ((9 : ℤ), (9 : ℤ))}]).rows
          [Feature.mk [] {((9 : ℤ), (9 : ℤ))}])) ↔
      ∃ row ∈ (mergeOuter
          (groupbySum (overlay_intersection
            (GeoDF.mk ["NOMBRE", "geometry"]
              [Feature.mk [("NOMBRE", PVal.str "Salitre")]
                {((0 : ℤ), (0 : ℤ)), ((0 : ℤ), (1 : ℤ)), ((9 : ℤ), (9 : ℤ))}]).rows
            [Feature.mk [] {((0 : ℤ), (0 : ℤ)), ((0 : ℤ), (1 : ℤ))}]))
          (groupbySum (overlay_intersection
            (GeoDF.mk ["NOMBRE", "geometry"]
              [Feature.mk [("NOMBRE", PVal.str "Salitre")]
                {((0 : ℤ), (0 : ℤ)), ((0 : ℤ), (1 : ℤ)), ((9 : ℤ), (9 : ℤ))}]).rows
            [Feature.mk [] {((9 : ℤ), (9 : ℤ))}]))).map
        (fun t => ResumenRow.mk t.1 t.2.1 t.2.2 (t.2.1 + t.2.2)),
        row.nombre = nm)) :=
  ⟨rfl,
    calculate_expansion_areas_total_identity
      [Feature.mk [] {((9 : ℤ), (9 : ℤ))}]
      [Feature.mk [] {((0 : ℤ), (0 : ℤ)), ((0 : ℤ), (1 : ℤ))}]
      (GeoDF.mk ["NOMBRE", "geometry"]
        [Feature.mk [("NOMBRE", PVal.str "Salitre")]
          {((0 : ℤ), (0 : ℤ)), ((0 : ℤ), (1 : ℤ)), ((9 : ℤ), (9 : ℤ))}])
      _ rfl⟩

/-! ## Per-cluster dissolved areas: top_clusters (src/maps.py) -/

/-- A row of the cluster-annotated collection written by the pipeline:
the cluster id and the member's original (unbuffered) geometry. -/
structure ClusteredFeature where
  cluster_id : ℤ
  geom : Geom
deriving DecidableEq

/-- The distinct cluster ids (group keys of dissolve(by="cluster_id");
pandas sorts them, but row order is immaterial to the stated properties
and left unmodelled). -/
def clusterIds (rows : List ClusteredFeature) : List ℤ :=
  (rows.map (fun f => f.cluster_id)).dedup

/-- The member geometries of one cluster. -/
def clusterMembers (rows : List ClusteredFeature) (c : ℤ) : List Geom :=
  (rows.filter (fun f => f.cluster_id == c)).map (fun f => f.geom)

/-- gdf.dissolve(by="cluster_id", as_index=False): one row per cluster
id with the unary_union of the members' geometries. -/
def dissolve (rows : List ClusteredFeature) : List ClusteredFeature :=
  (clusterIds rows).map
    (fun c => ClusteredFeature.mk c (unaryUnion (clusterMembers rows c)))

/-- A row of the top_clusters table: cluster id, dissolved geometry and
its area in hectares. -/
structure ClusterRow where
  cluster_id : ℤ
  geom : Geom
  area_ha : ℚ
deriving DecidableEq

/-- top_clusters (src/maps.py): dissolve by cluster id, compute area_ha
from the dissolved geometry, sort by area descending (stable mergesort
over the decidable rational comparison) and keep the first top_n rows. -/
def top_clusters (rows : List ClusteredFeature) (top_n : ℕ) : List ClusterRow :=
  (((dissolve rows).map (fun f =>
      ClusterRow.mk f.cluster_id f.geom ((f.geom.card : ℚ) / 10000))).mergeSort
    (fun a b => decide (b.area_ha ≤ a.area_ha))).take top_n

theorem card_unaryUnion_le (l : List Geom) :
    (unaryUnion l).card ≤ (l.map Finset.card).sum := by
  induction l with
  | nil => simp [unaryUnion]
  | cons g t ih =>
      show (g ∪ unaryUnion t).card ≤ g.card + (t.map Finset.card).sum
      calc (g ∪ unaryUnion t).card ≤ g.card + (unaryUnion t).card :=
            Finset.card_union_le g (unaryUnion t)
        _ ≤ g.card + (t.map Finset.card).sum := Nat.add_le_add_left ih _

theorem sum_map_areaHa (l : List Geom) :
    (l.map (fun g => (g.card : ℚ) / 10000)).sum =
      (((l.map Finset.card).sum : ℕ) : ℚ) / 10000 := by
  induction l with
  | nil => simp
  | cons g t ih =>
      rw [List.map_cons, List.sum_cons, ih, List.map_cons, List.sum_cons]
      push_cast
      ring

/-- C3: every row reported by top_clusters carries, as area_ha, the
hectare area of the dissolved union of its cluster's members' original
geometries; this dissolved area never exceeds (and in general differs
from) the sum of the individual member areas. -/
theorem top_clusters_area_is_dissolved_union
    (rows : List ClusteredFeature) (top_n : ℕ) :
    ∀ row ∈ top_clusters rows top_n,
      row.geom = unaryUnion (clusterMembers rows row.cluster_id) ∧
      row.area_ha =
        ((unaryUnion (clusterMembers rows row.cluster_id)).card : ℚ) / 10000 ∧
      ((unaryUnion (clusterMembers rows row.cluster_id)).card : ℚ) / 10000 ≤
        ((clusterMembers rows row.cluster_id).map
          (fun g => (g.card : ℚ) / 10000)).sum := by
  intro row hrow
  have h1 : row ∈ ((dissolve rows).map (fun f =>
      ClusterRow.mk f.cluster_id f.geom ((f.geom.card : ℚ) / 10000))).mergeSort
      (fun a b => decide (b.area_ha ≤ a.area_ha)) :=
    List.mem_of_mem_take hrow
  rw [List.mem_mergeSort] at h1
  obtain ⟨f, hf, rfl⟩ := List.mem_map.1 h1
  obtain ⟨c, _, rfl⟩ := List.mem_map.1 hf
  refine ⟨rfl, rfl, ?_⟩
  rw [sum_map_areaHa]
  apply div_le_div_of_nonneg_right ?_ (by norm_num)
  exact_mod_cast card_unaryUnion_le (clusterMembers rows c)

theorem top_clusters_area_is_dissolved_union_witness :
    (ClusterRow.mk 1
        (unaryUnion (clusterMembers
          [ClusteredFeature.mk 1 {((0 : ℤ), (0 : ℤ))},
           ClusteredFeature.mk 1 {((0 : ℤ), (0 : ℤ)), ((1 : ℤ), (0 : ℤ))}] 1))
        (((unaryUnion (clusterMembers
          [ClusteredFeature.mk 1 {((0 : ℤ), (0 : ℤ))},
           ClusteredFeature.mk 1 {((0 : ℤ), (0 : ℤ)), ((1 : ℤ), (0 : ℤ))}]
            1)).card : ℚ) / 10000) ∈
      top_clusters
        [ClusteredFeature.mk 1 {((0 : ℤ), (0 : ℤ))},
         ClusteredFeature.mk 1 {((0 : ℤ), (0 : ℤ)), ((1 : ℤ), (0 : ℤ))}] 5) ∧
    ((ClusterRow.mk 1
        (unaryUnion (clusterMembers
          [ClusteredFeature.mk 1 {((0 : ℤ), (0 : ℤ))},
           ClusteredFeature.mk 1 {((0 : ℤ), (0 : ℤ)), ((1 : ℤ), (0 : ℤ))}] 1))
        (((unaryUnion (clusterMembers
          [ClusteredFeature.mk 1 {((0 : ℤ), (0 : ℤ))},
           ClusteredFeature.mk 1 {((0 : ℤ), (0 : ℤ)), ((1 : ℤ), (0 : ℤ))}]
            1)).card : ℚ) / 10000)).geom =
      unaryUnion (clusterMembers
        [ClusteredFeature.mk 1 {((0 : ℤ), (0 : ℤ))},
         ClusteredFeature.mk 1 {((0 : ℤ), (0 : ℤ)), ((1 : ℤ), (0 : ℤ))}] 1) ∧
    (ClusterRow.mk 1
        (unaryUnion (clusterMembers
          [ClusteredFeature.mk 1 {((0 : ℤ), (0 : ℤ))},
           ClusteredFeature.mk 1 {((0 : ℤ), (0 : ℤ)), ((1 : ℤ), (0 : ℤ))}] 1))
        (((unaryUnion (clusterMembers
          [ClusteredFeature.mk 1 {((0 : ℤ), (0 : ℤ))},
           ClusteredFeature.mk 1 {((0 : ℤ), (0 : ℤ)), ((1 : ℤ), (0 : ℤ))}]
            1)).card : ℚ) / 10000)).area_ha =
      ((unaryUnion (clusterMembers
        [ClusteredFeature.mk 1 {((0 : ℤ), (0 : ℤ))},
         ClusteredFeature.mk 1 {((0 : ℤ), (0 : ℤ)), ((1 : ℤ), (0 : ℤ))}]
          1)).card : ℚ) / 10000 ∧
    ((unaryUnion (clusterMembers
        [ClusteredFeature.mk 1 {((0 : ℤ), (0 : ℤ))},
         ClusteredFeature.mk 1 {((0 : ℤ), (0 : ℤ)), ((1 : ℤ), (0 : ℤ))}]
          1)).card : ℚ) / 10000 ≤
      ((clusterMembers
        [ClusteredFeature.mk 1 {((0 : ℤ), (0 : ℤ))},
         ClusteredFeature.mk 1 {((0 : ℤ), (0 : ℤ)), ((1 : ℤ), (0 : ℤ))}]
          1).map (fun g => (g.card : ℚ) / 10000)).sum) := by
  have hmem : (ClusterRow.mk 1
      (unaryUnion (clusterMembers
        [ClusteredFeature.mk 1 {((0 : ℤ), (0 : ℤ))},
         ClusteredFeature.mk 1 {((0 : ℤ), (0 : ℤ)), ((1 : ℤ), (0 : ℤ))}] 1))
      (((unaryUnion (clusterMembers
        [ClusteredFeature.mk 1 {((0 : ℤ), (0 : ℤ))},
         ClusteredFeature.mk 1 {((0 : ℤ), (0 : ℤ)), ((1 : ℤ), (0 : ℤ))}]
          1)).card : ℚ) / 10000) ∈
      top_clusters
        [ClusteredFeature.mk 1 {((0 : ℤ), (0 : ℤ))},
         ClusteredFeature.mk 1 {((0 : ℤ), (0 : ℤ)), ((1 : ℤ), (0 : ℤ))}] 5) := by
    unfold top_clusters
    rw [show ((dissolve
        [ClusteredFeature.mk 1 {((0 : ℤ), (0 : ℤ))},
         ClusteredFeature.mk 1 {((0 : ℤ), (0 : ℤ)), ((1 : ℤ), (0 : ℤ))}]).map
        (fun f => ClusterRow.mk f.cluster_id f.geom ((f.geom.card : ℚ) / 10000))) =
      [ClusterRow.mk 1
        (unaryUnion (clusterMembers
          [ClusteredFeature.mk 1 {((0 : ℤ), (0 : ℤ))},
           ClusteredFeature.mk 1 {((0 : ℤ), (0 : ℤ)), ((1 : ℤ), (0 : ℤ))}] 1))
        (((unaryUnion (clusterMembers
          [ClusteredFeature.mk 1 {((0 : ℤ), (0 : ℤ))},
           ClusteredFeature.mk 1 {((0 : ℤ), (0 : ℤ)), ((1 : ℤ), (0 : ℤ))}]
            1)).card : ℚ) / 10000)] from rfl, List.mergeSort_singleton]
    exact List.mem_cons_self _ _
  exact ⟨hmem, top_clusters_area_is_dissolved_union _ 5 _ hmem⟩

/-! ## set_dates (src/aux_utils.py) -/

/-- Python calendar.isleap: the Gregorian leap-year rule. -/
def isleap (y : ℤ) : Bool :=
  y % 4 == 0 && (y % 100 != 0 || y % 400 == 0)

/-- Python calendar.monthrange(y, m)[1]: the month length, read from the
mdays table with the February leap adjustment. -/
def monthrange_days (y : ℤ) (m : ℕ) : ℕ :=
  if m = 2 ∧ isleap y then 29
  else [31, 28, 31, 30, 31, 30, 31, 31, 30, 31, 30, 31].getD (m - 1) 0

/-- A calendar datetime at day resolution (the datetime values the
source constructs). -/
structure Datetime where
  year : ℤ
  month : ℕ
  day : ℕ
deriving DecidableEq

/-- Chronological strict order on datetimes. -/
def dateLt (a b : Datetime) : Prop :=
  a.year < b.year ∨ (a.year = b.year ∧
    (a.month < b.month ∨ (a.month = b.month ∧ a.day < b.day)))

/-- set_dates (src/aux_utils.py): the last day of the requested month
paired with the last day of the previous month (December of the previous
year when mes = 1). -/
def set_dates (mes : ℕ) (anio : ℤ) : Datetime × Datetime :=
  let prev := if mes > 1 then (anio, mes - 1) else (anio - 1, 12)
  (Datetime.mk anio mes (monthrange_days anio mes),
   Datetime.mk prev.1 prev.2 (monthrange_days prev.1 prev.2))

/-- Modelled from the spec notion of calendar: the month lengths of the
proleptic Gregorian calendar stated by the usual rule (31 days for
January, March, May, July, August, October and December, 30 for April,
June, September and November, 28 or 29 for February by the leap rule). -/
def daysInMonth (y : ℤ) (m : ℕ) : ℕ :=
  if m = 1 ∨ m = 3 ∨ m = 5 ∨ m = 7 ∨ m = 8 ∨ m = 10 ∨ m = 12 then 31
  else if m = 4 ∨ m = 6 ∨ m = 9 ∨ m = 11 then 30
  else if m = 2 then
    (if y % 4 = 0 ∧ (y % 100 ≠ 0 ∨ y % 400 = 0) then 29 else 28)
  else 0

theorem monthrange_days_eq_daysInMonth (y : ℤ) (m : ℕ)
    (h1 : 1 ≤ m) (h2 : m ≤ 12) :
    monthrange_days y m = daysInMonth y m := by
  interval_cases m <;>
    simp [monthrange_days, daysInMonth, isleap, Bool.and_eq_true,
      Bool.or_eq_true, bne_iff_ne, beq_iff_eq]

/-- C10: for every year and every month between 1 and 12, set_dates
returns the pair (last calendar day of the requested month, last
calendar day of the immediately preceding month — December of the
previous year when mes = 1), and the second date is strictly earlier
than the first. -/
theorem set_dates_correct (mes : ℕ) (anio : ℤ) (h1 : 1 ≤ mes) (h2 : mes ≤ 12) :
    (set_dates mes anio).1 = Datetime.mk anio mes (daysInMonth anio mes) ∧
    (set_dates mes anio).2 =
      (if mes = 1 then Datetime.mk (anio - 1) 12 (daysInMonth (anio - 1) 12)
       else Datetime.mk anio (mes - 1) (daysInMonth anio (mes - 1))) ∧
    dateLt (set_dates mes anio).2 (set_dates mes anio).1 := by
  by_cases hm : mes > 1
  · have hprev : set_dates mes anio =
        (Datetime.mk anio mes (monthrange_days anio mes),
         Datetime.mk anio (mes - 1) (monthrange_days anio (mes - 1))) := by
      unfold set_dates
      rw [if_pos hm]
    rw [hprev]
    refine ⟨?_, ?_, ?_⟩
    · rw [monthrange_days_eq_daysInMonth anio mes h1 h2]
    · rw [if_neg (by omega : ¬ mes = 1),
        monthrange_days_eq_daysInMonth anio (mes - 1) (by omega) (by omega)]
    · exact Or.inr ⟨rfl, Or.inl (show mes - 1 < mes by omega)⟩
  · have hm1 : mes = 1 := by omega
    subst hm1
    have hprev : set_dates 1 anio =
        (Datetime.mk anio 1 (monthrange_days anio 1),
         Datetime.mk (anio - 1) 12 (monthrange_days (anio - 1) 12)) := by
      unfold set_dates
      rw [if_neg hm]
    rw [hprev]
    refine ⟨?_, ?_, ?_⟩
    · rw [monthrange_days_eq_daysInMonth anio 1 (by omega) (by omega)]
    · rw [if_pos rfl,
        monthrange_days_eq_daysInMonth (anio - 1) 12 (by omega) (by omega)]
    · exact Or.inl (show anio - 1 < anio by omega)

theorem set_dates_correct_witness :
    ((1 : ℕ) ≤ 3 ∧ (3 : ℕ) ≤ 12) ∧
    ((set_dates 3 2024).1 = Datetime.mk 2024 3 (daysInMonth 2024 3) ∧
    (set_dates 3 2024).2 =
      (if (3 : ℕ) = 1 then Datetime.mk (2024 - 1) 12 (daysInMonth (2024 - 1) 12)
       else Datetime.mk 2024 (3 - 1) (daysInMonth 2024 (3 - 1))) ∧
    dateLt (set_dates 3 2024).2 (set_dates 3 2024).1) :=
  ⟨⟨by omega, by omega⟩, set_dates_correct 3 2024 (by omega) (by omega)⟩
